import Mathlib

/-!
Verification of the mpay ledger engine.

This file shallowly embeds the core of the mpay repository
(src/mpay/db.py, src/mpay/mpay.py and the alembic migrations) in Lean:
the data model (users, tags, agents, currencies, transactions, standing
orders), the SQL balance-maintenance triggers, the consistency checker,
the `pay` operation, standing-order creation/execution/disabling, and
hierarchical tag resolution.  Money values (`Numeric(9,3)` decimals) are
represented exactly as integers counting thousandths of the base unit;
naive-UTC datetimes are represented as integers (an epoch offset).
-/

deriving instance DecidableEq for Except

namespace Mpay

/-- A row of the `users` table (db.py `User`). -/
structure User where
  id : Nat
  name : String
  balance : Int
deriving Repr, DecidableEq

/-- A row of the `currencies` table (db.py `Currency`). -/
structure Currency where
  id : Nat
  iso4217 : String
deriving Repr, DecidableEq

/-- A row of the `tags` table (db.py `Tag`): name plus optional parent. -/
structure Tag where
  id : Nat
  name : String
  parentId : Option Nat
deriving Repr, DecidableEq

/-- A row of the `agents` table (db.py `Agent`). -/
structure Agent where
  id : Nat
  name : String
deriving Repr, DecidableEq

/-- A row of the `transactions` table (db.py `Transaction`, plus the
`user_created_id` column added by migration 931cbe1524ae).  `amount` is
the `converted_amount`; `tags` holds the ids from the
`transactions_tags` association table. -/
structure Txn where
  id : Nat
  userFrom : Nat
  userTo : Nat
  userCreated : Nat
  amount : Int
  originalAmount : Option Int
  originalCurrency : Option Nat
  standingOrder : Option Nat
  agentId : Option Nat
  note : Option String
  dtCreated : Int
  dtDue : Int
  tags : List Nat
deriving Repr, DecidableEq

/-- A row of the `standing_orders` table (db.py `StandingOrder`).
`dtNext` models `dt_next_utc` (`none` = disabled/expired). -/
structure Order where
  id : Nat
  name : String
  userFrom : Nat
  userTo : Nat
  amount : Int
  note : Option String
  rruleStr : String
  dtNext : Option Int
deriving Repr, DecidableEq

/-- The whole relational store, together with the autoincrement
counters the database would use for fresh primary keys. -/
structure DBState where
  users : List User
  currencies : List Currency
  agents : List Agent
  tags : List Tag
  txns : List Txn
  orders : List Order
  nextTxnId : Nat
  nextTagId : Nat
  nextAgentId : Nat
  nextOrderId : Nat
deriving Repr, DecidableEq

/-- `SELECT SUM(converted_amount) FROM transactions WHERE user_to_id = uid`
(with SQL's `NULL`-for-empty collapsed to 0, as `Mpay.check` does). -/
def incomingSum (txns : List Txn) (uid : Nat) : Int :=
  ((txns.filter (fun t => t.userTo = uid)).map Txn.amount).sum

/-- `SELECT SUM(converted_amount) FROM transactions WHERE user_from_id = uid`
(with SQL's `NULL`-for-empty collapsed to 0). -/
def outgoingSum (txns : List Txn) (uid : Nat) : Int :=
  ((txns.filter (fun t => t.userFrom = uid)).map Txn.amount).sum

/-- `UPDATE users SET balance = balance + delta WHERE id = uid` —
the single statement used by the balance triggers in db.py. -/
def sqlAddBalance (users : List User) (uid : Nat) (delta : Int) : List User :=
  users.map fun u => if u.id = uid then { u with balance := u.balance + delta } else u

/-- The `update_balance_insert` trigger (db.py lines 182–192):
after inserting transaction `t`, subtract its amount from `user_from`
and add it to `user_to`. -/
def insertTrigger (users : List User) (t : Txn) : List User :=
  sqlAddBalance (sqlAddBalance users t.userFrom (-t.amount)) t.userTo t.amount

/-- The `update_balance_delete` trigger (db.py lines 194–204):
after deleting transaction `t`, reverse its effect. -/
def deleteTrigger (users : List User) (t : Txn) : List User :=
  sqlAddBalance (sqlAddBalance users t.userFrom t.amount) t.userTo (-t.amount)

/-- The `update_balance_update` trigger (db.py lines 168–180): reverse
the OLD row's effect, then apply the NEW row's effect (four UPDATE
statements, in trigger order). -/
def updateTrigger (users : List User) (told tnew : Txn) : List User :=
  sqlAddBalance
    (sqlAddBalance
      (sqlAddBalance (sqlAddBalance users told.userFrom told.amount) told.userTo (-told.amount))
      tnew.userFrom (-tnew.amount))
    tnew.userTo tnew.amount

/-- The per-user balance invariant: every user's stored balance equals
the sum of converted amounts of incoming transactions minus the sum of
converted amounts of outgoing transactions. -/
def BalInv (users : List User) (txns : List Txn) : Prop :=
  ∀ u ∈ users, u.balance = incomingSum txns u.id - outgoingSum txns u.id

instance (users : List User) (txns : List Txn) : Decidable (BalInv users txns) := by
  unfold BalInv; infer_instance

/-- The errors `Mpay.check` can raise, keeping the distinguishing data of
the `AssertionError` messages (mpay.py lines 506–557). -/
inductive CheckError where
  | balanceSumNonzero
  | userBalanceMismatch (name : String)
deriving Repr, DecidableEq

/-- `SELECT SUM(balance) FROM users` — `none` (SQL `NULL`) when the table
is empty. -/
def balanceSumScalar (users : List User) : Option Int :=
  match users with
  | [] => none
  | _ => some ((users.map User.balance).sum)

/-- The per-user loop of `Mpay.check` (mpay.py lines 536–557): for each
user, in table order, recompute incoming minus outgoing from the
transactions table and compare with the stored balance, raising at the
first mismatch. -/
def checkUsers (txns : List Txn) : List User → Except CheckError Unit
  | [] => .ok ()
  | u :: rest =>
    if incomingSum txns u.id - outgoingSum txns u.id ≠ u.balance then
      .error (.userBalanceMismatch u.name)
    else checkUsers txns rest

/-- `Mpay.check` (mpay.py lines 506–557), minus the sqlite-specific
`PRAGMA` calls: raise if the users' balance sum is a non-`NULL` nonzero
value, then run the per-user recomputation loop. -/
def check (users : List User) (txns : List Txn) : Except CheckError Unit :=
  match balanceSumScalar users with
  | some s => if s ≠ 0 then .error .balanceSumNonzero else checkUsers txns users
  | none => checkUsers txns users

/-- Python `str.strip()`: drop whitespace from both ends.  (Written over
`List Char` so that it reduces by structural recursion; agrees with the
Python behaviour on ASCII input.) -/
def pyStrip (s : String) : String :=
  String.mk (((s.toList.dropWhile Char.isWhitespace).reverse.dropWhile
    Char.isWhitespace).reverse)

/-- Python `str.split("/")`: split on every slash, keeping empty pieces
(`"".split("/") == [""]`, so the result is never empty). -/
def pySplitAux : List Char → List Char → List String
  | [], acc => [String.mk acc.reverse]
  | c :: cs, acc =>
    if c = '/' then String.mk acc.reverse :: pySplitAux cs []
    else pySplitAux cs (c :: acc)

/-- Python `str.split("/")` on a whole string. -/
def pySplit (s : String) : List String :=
  pySplitAux s.toList []

/-- The two ways `sqlalchemy.Query.one()` / `one_or_none()` can fail. -/
inductive QErr where
  | noResultFound
  | multipleResultsFound
deriving Repr, DecidableEq

/-- `Query.one()`: exactly one row or an error. -/
def queryOne {α : Type} (l : List α) : Except QErr α :=
  match l with
  | [] => .error .noResultFound
  | [x] => .ok x
  | _ => .error .multipleResultsFound

/-- `Query.one_or_none()`: at most one row or an error. -/
def queryOneOrNone {α : Type} (l : List α) : Except QErr (Option α) :=
  match l with
  | [] => .ok none
  | [x] => .ok (some x)
  | _ => .error .multipleResultsFound

/-- The `filter_by(name=…, parent=…)` predicate used on tags: sqlalchemy
compares the parent relationship by the row's primary key (NULL for no
parent). -/
def tagMatches (nm : String) (parent : Option Nat) (t : Tag) : Bool :=
  decide (t.name = nm ∧ t.parentId = parent)

/-- The walk of `Mpay.find_tag` (mpay.py lines 161–170): for each path
segment look up the single tag with that name under the current parent;
the `[]` case cannot arise because `String.splitOn` never returns an
empty list. -/
def findTagGo (tags : List Tag) : List String → Option Nat → Except QErr Tag
  | [], _ => .error .noResultFound
  | [s], parent => queryOne (tags.filter (tagMatches s parent))
  | s :: s' :: rest, parent =>
    match queryOne (tags.filter (tagMatches s parent)) with
    | .error e => .error e
    | .ok cur => findTagGo tags (s' :: rest) (some cur.id)

/-- `Mpay.find_tag`: strip the hierarchical name, split it on `/` and
walk the tag tree from the root. -/
def find_tag (tags : List Tag) (hname : String) : Except QErr Tag :=
  findTagGo tags (pySplit (pyStrip hname)) none

/-- The spec's `resolveHierarchicalTag`, written from its words: split
path on "/", walk from root, matching each successive (name, parent)
pair, failing if any segment is missing. -/
def resolveHierarchicalTag (tags : List Tag) : List String → Option Nat → Option Tag
  | [], _ => none
  | [s], parent => tags.find? (tagMatches s parent)
  | s :: s' :: rest, parent =>
    match tags.find? (tagMatches s parent) with
    | none => none
    | some cur => resolveHierarchicalTag tags (s' :: rest) (some cur.id)

/-- The tag-table constraints from db.py (primary key and the
`UniqueConstraint("name", "parent_id")`): distinct rows have distinct
ids and distinct (name, parent) pairs. -/
def TagsWF (tags : List Tag) : Prop :=
  (tags.map Tag.id).Nodup ∧
    tags.Pairwise (fun a b => ¬(a.name = b.name ∧ a.parentId = b.parentId))

instance (tags : List Tag) : Decidable (TagsWF tags) := by
  unfold TagsWF; infer_instance

/-- The errors surfacing from engine operations: `MpayException`,
`MpayValueError` (the repo's ValueError subclass, i.e. the spec's
ValidationError), store-level constraint violations (sqlalchemy
`IntegrityError`), Python `AssertionError`, and sqlalchemy
`MultipleResultsFound` (which no engine code catches). -/
inductive Err where
  | mpayError (msg : String)
  | valueError (msg : String)
  | integrityError (msg : String)
  | assertionError (msg : String)
  | multipleResults
deriving Repr, DecidableEq

/-- Whether an error is the spec's ValidationError, i.e. the code's
`MpayValueError`. -/
def Err.isValidationError : Err → Bool
  | .valueError _ => true
  | _ => false

/-- A character allowed by `re.match(r"^[a-z0-9_]+$", …)`. -/
def isUserNameChar (c : Char) : Bool := c.isLower || c.isDigit || c = '_'

/-- A character allowed by `re.match(r"^[a-zA-Z0-9_-]+$", …)`. -/
def isWordChar (c : Char) : Bool :=
  c.isLower || c.isUpper || c.isDigit || c = '-' || c = '_'

/-- `Mpay.sanitize_user_name` (mpay.py lines 131–135). -/
def sanitize_user_name (s : String) : Except Err String :=
  let s := pyStrip s
  if !s.toList.isEmpty && s.toList.all isUserNameChar then .ok s
  else .error (.valueError "username can only contain lowercase letters, numbers and underscore")

/-- `Mpay.sanitize_tag_name` (mpay.py lines 137–143). -/
def sanitize_tag_name (s : String) : Except Err String :=
  let s := pyStrip s
  if s.toList.isEmpty then .error (.valueError "tag name must not be empty")
  else if s.toList.all isWordChar then .ok s
  else .error (.valueError "tag name can only contain letters, numbers, dash and underscore")

/-- `Mpay.sanitize_order_name` (mpay.py lines 145–151). -/
def sanitize_order_name (s : String) : Except Err String :=
  let s := pyStrip s
  if s.toList.isEmpty then .error (.valueError "order name must not be empty")
  else if s.toList.all isWordChar then .ok s
  else .error (.valueError "order name can only contain letters, numbers, dash and underscore")

/-- `Mpay.sanitize_agent_name` (mpay.py lines 153–159). -/
def sanitize_agent_name (s : String) : Except Err String :=
  let s := pyStrip s
  if s.toList.isEmpty then .error (.valueError "agent name must not be empty")
  else if s.toList.all isWordChar then .ok s
  else .error (.valueError "agent name can only contain letters, numbers, dash and underscore")

/-- `Query.one()` wrapped in `try/except NoResultFound` raising
`MpayException(msg)`, as the lookups in `pay`, `create_order` and
`disable_order` do; `MultipleResultsFound` is not caught. -/
def oneOrMpay {α : Type} (l : List α) (msg : String) : Except Err α :=
  match queryOne l with
  | .ok x => .ok x
  | .error .noResultFound => .error (.mpayError msg)
  | .error .multipleResultsFound => .error .multipleResults

/-- The walk of `Mpay.create_hierarchical_tag` (mpay.py lines 172–192):
look up each segment with `one_or_none`, creating a missing segment from
its sanitized name.  The database's `(name, parent_id)` uniqueness
constraint — which sqlalchemy would report at flush time if the
sanitized name collides with an existing sibling — is checked at the
insert. -/
def createTagGo : List String → Option Nat → DBState → Except Err (DBState × Tag)
  | [], _, _ => .error (.assertionError "current is not None")
  | s :: rest, parent, st =>
    match queryOneOrNone (st.tags.filter (tagMatches s parent)) with
    | .error _ => .error .multipleResults
    | .ok (some t) =>
      match rest with
      | [] => .ok (st, t)
      | _ => createTagGo rest (some t.id) st
    | .ok none =>
      match sanitize_tag_name s with
      | .error e => .error e
      | .ok nm =>
        if (st.tags.filter (tagMatches nm parent)).isEmpty then
          let t : Tag := ⟨st.nextTagId, nm, parent⟩
          let st' := { st with tags := st.tags ++ [t], nextTagId := st.nextTagId + 1 }
          match rest with
          | [] => .ok (st', t)
          | _ => createTagGo rest (some t.id) st'
        else .error (.integrityError "uq_tags_name")

/-- `Mpay.create_hierarchical_tag` on a hierarchical name. -/
def create_hierarchical_tag (st : DBState) (hname : String) : Except Err (DBState × Tag) :=
  createTagGo (pySplit (pyStrip hname)) none st

/-- The tag loop of `Mpay.pay` (mpay.py lines 276–284): for each
hierarchical name, `find_tag`; on `NoResultFound` ask for confirmation
and `create_hierarchical_tag`, else raise `MpayException`. -/
def payResolveTags (confirm : String → Bool) :
    List String → DBState → Except Err (DBState × List Tag)
  | [], st => .ok (st, [])
  | n :: rest, st =>
    match find_tag st.tags n with
    | .ok t =>
      match payResolveTags confirm rest st with
      | .ok (st', ts) => .ok (st', t :: ts)
      | .error e => .error e
    | .error .noResultFound =>
      if confirm ("Tag " ++ n ++ " does not exist. Create?") then
        match create_hierarchical_tag st n with
        | .error e => .error e
        | .ok (st', t) =>
          match payResolveTags confirm rest st' with
          | .ok (st'', ts) => .ok (st'', t :: ts)
          | .error e => .error e
      else .error (.mpayError ("tag " ++ n ++ " does not exist"))
    | .error .multipleResultsFound => .error .multipleResults

/-- The `original_currency` resolution in `Mpay.pay` (mpay.py lines
254–259). -/
def payCurrency (st : DBState) : Option String → Except Err (Option Nat)
  | none => .ok none
  | some c =>
    match queryOne (st.currencies.filter (fun cur => decide (cur.iso4217 = c))) with
    | .ok cur => .ok (some cur.id)
    | .error .noResultFound => .error (.valueError "original_currency is not a known currency")
    | .error .multipleResultsFound => .error .multipleResults

/-- The agent resolution in `Mpay.pay` (mpay.py lines 261–268): look the
agent up by sanitized name, and on a miss create it after confirmation
(the new `db.Agent` reaches the table through the relationship cascade
at commit). -/
def payAgent (st : DBState) (confirm : String → Bool) :
    Option String → Except Err (DBState × Option Nat)
  | none => .ok (st, none)
  | some an =>
    match sanitize_agent_name an with
    | .error e => .error e
    | .ok an =>
      match queryOneOrNone (st.agents.filter (fun a => decide (a.name = an))) with
      | .error _ => .error .multipleResults
      | .ok (some a) => .ok (st, some a.id)
      | .ok none =>
        if confirm ("Agent " ++ an ++ " does not exist. Create?") then
          .ok ({ st with
                 agents := st.agents ++ [⟨st.nextAgentId, an⟩],
                 nextAgentId := st.nextAgentId + 1 }, some st.nextAgentId)
        else .error (.mpayError ("agent " ++ an ++ " does not exist"))

/-- Committing a new transaction row: the check constraints of the
`transactions` table (db.py lines 154–165 and migration 931cbe1524ae)
fire first; on success the row is appended and the
`update_balance_insert` trigger runs in the same unit of work. -/
def insertTxn (st : DBState) (t : Txn) : Except Err DBState :=
  if t.userFrom = t.userTo then .error (.integrityError "user_from_to_different")
  else if ¬ t.dtDue ≤ t.dtCreated then .error (.integrityError "dt_due_not_in_future")
  else if t.amount < 0 then .error (.integrityError "converted_amount_ge_zero")
  else if (match t.originalAmount with | some a => decide (a < 0) | none => false) = true then
    .error (.integrityError "original_amount_ge_zero")
  else if t.originalCurrency.isNone ≠ t.originalAmount.isNone then
    .error (.integrityError "both_original_amount_and_currency")
  else .ok { st with
             txns := st.txns ++ [t],
             users := insertTrigger st.users t,
             nextTxnId := st.nextTxnId + 1 }

/-- `Mpay.pay` (mpay.py lines 223–304).  `cfgUser` is the configured
current user, `now` the wall-clock instant (used both for the default
due date and as `dt_created_utc`), `confirm` the `ask_confirmation`
callback.  The second component of the result is the Python return
value of the method: the source has no `return` statement, so it is
always `none`. -/
def pay (cfgUser : String) (now : Int) (st : DBState) (recipientName : String)
    (convertedAmount : Int) (due : Option Int) (originalCurrency : Option String)
    (originalAmount : Option Int) (agentName : Option String) (note : Option String)
    (tagNames : List String) (confirm : String → Bool) :
    Except Err (DBState × Option Nat) :=
  match sanitize_user_name recipientName with
  | .error e => .error e
  | .ok rn =>
    let dueVal := due.getD now
    match oneOrMpay (st.users.filter (fun u => decide (u.name = cfgUser)))
        "current user does not exist in the database" with
    | .error e => .error e
    | .ok sender =>
      match oneOrMpay (st.users.filter (fun u => decide (u.name = rn)))
          "recipient user does not exist" with
      | .error e => .error e
      | .ok recipient =>
        if sender = recipient then
          .error (.mpayError "recipient must not be the same as the current user")
        else
          match payCurrency st originalCurrency with
          | .error e => .error e
          | .ok currencyId =>
            match payAgent st confirm agentName with
            | .error e => .error e
            | .ok (st₂, agentId) =>
              match payResolveTags confirm tagNames st₂ with
              | .error e => .error e
              | .ok (st₃, tagList) =>
                let sr : User × User :=
                  if 0 ≤ convertedAmount then (sender, recipient) else (recipient, sender)
                let t : Txn :=
                  { id := st₃.nextTxnId, userFrom := sr.1.id, userTo := sr.2.id,
                    userCreated := sender.id, amount := |convertedAmount|,
                    originalAmount := originalAmount.map (fun a => |a|),
                    originalCurrency := currencyId, standingOrder := none,
                    agentId := agentId, note := note, dtCreated := now,
                    dtDue := dueVal, tags := tagList.map Tag.id }
                match insertTxn st₃ t with
                | .error e => .error e
                | .ok st₄ => .ok (st₄, none)

/-- Committing a new standing-order row: the check constraints of the
`standing_orders` table (db.py lines 125–131, with `amount >= 0` after
migration 6fb1631eadba) and the `(name, user_from_id)` uniqueness
constraint fire at the insert. -/
def insertOrder (st : DBState) (o : Order) : Except Err DBState :=
  if o.userFrom = o.userTo then .error (.integrityError "user_from_to_different")
  else if o.amount < 0 then .error (.integrityError "amount_ge_zero")
  else if st.orders.any (fun p => decide (p.name = o.name) && decide (p.userFrom = o.userFrom)) then
    .error (.integrityError "uq_standing_orders_name")
  else .ok { st with
             orders := st.orders ++ [o],
             nextOrderId := st.nextOrderId + 1 }

/-- `Mpay.create_order` (mpay.py lines 435–474).  The recurrence rule is
kept as its serialized text `rruleStr`; `firstOccurrence` is `rrule[0]`,
the rule's first occurrence, which seeds `dt_next_utc`.  There is no
engine-level recipient≠sender check: the row goes straight to
`insertOrder`, where only the store's check constraint can reject it. -/
def create_order (cfgUser : String) (st : DBState) (name recipientName : String)
    (amount : Int) (rruleStr : String) (firstOccurrence : Int)
    (note : Option String) : Except Err DBState :=
  match sanitize_order_name name with
  | .error e => .error e
  | .ok nm =>
    match sanitize_user_name recipientName with
    | .error e => .error e
    | .ok rn =>
      if amount ≤ 0 then .error (.valueError "amount must be greater than zero")
      else
        match oneOrMpay (st.users.filter (fun u => decide (u.name = cfgUser)))
            "current user does not exist in the database" with
        | .error e => .error e
        | .ok sender =>
          match oneOrMpay (st.users.filter (fun u => decide (u.name = rn)))
              "recipient user does not exist" with
          | .error e => .error e
          | .ok recipient =>
            insertOrder st
              { id := st.nextOrderId, name := nm, userFrom := sender.id,
                userTo := recipient.id, amount := amount, note := note,
                rruleStr := rruleStr, dtNext := some firstOccurrence }

/-- `Mpay.disable_order` (mpay.py lines 476–504): resolve the order by
(name, current user); if already disabled return success; otherwise ask
for confirmation, and on decline return failure without mutating; on
confirmation set `dt_next_utc` to NULL (an UPDATE keyed on the row's
id). -/
def disable_order (cfgUser : String) (st : DBState) (orderName : String)
    (confirm : String → Bool) : Except Err (Bool × DBState) :=
  match sanitize_order_name orderName with
  | .error e => .error e
  | .ok nm =>
    match oneOrMpay (st.users.filter (fun u => decide (u.name = cfgUser)))
        "current user does not exist in the database" with
    | .error e => .error e
    | .ok user =>
      match queryOne (st.orders.filter
          (fun o => decide (o.name = nm) && decide (o.userFrom = user.id))) with
      | .error .noResultFound =>
        .error (.mpayError ("standing order " ++ nm ++ " with user_from=" ++
          user.name ++ " does not exist"))
      | .error .multipleResultsFound => .error .multipleResults
      | .ok order =>
        if order.dtNext = none then .ok (true, st)
        else if ¬ confirm "This operation is irreversible. Proceed?" then
          .ok (false, st)
        else
          .ok (true, { st with
            orders := st.orders.map
              (fun o => if o.id = order.id then { o with dtNext := none } else o) })

/-- The transaction created for one occurrence of a standing order
(mpay.py lines 405–413): endpoints, amount and creator come from the
order, the due date is the occurrence instant, `dt_created_utc` is the
insert time. -/
def mkOrderTxn (o : Order) (tid : Nat) (dDue now : Int) : Txn :=
  { id := tid, userFrom := o.userFrom, userTo := o.userTo,
    userCreated := o.userFrom, amount := o.amount, originalAmount := none,
    originalCurrency := none, standingOrder := some o.id, agentId := none,
    note := none, dtCreated := now, dtDue := dDue, tags := [] }

/-- The while loop of `Mpay._execute_order` (mpay.py lines 401–423):
while the cursor is non-null and at most `now`, create a transaction for
the occurrence, feed the recurrence rule the cursor to get the strictly
next occurrence (`after`), and assert monotonicity — a non-null result
that is not strictly greater raises `AssertionError`.  Returns the
created transactions (in order) and the final cursor. -/
def executeOrderLoop (after : Int → Option Int) (o : Order) (now : Int) :
    Int → Nat → List Txn → Except Err (List Txn × Option Int)
  | d, tid, acc =>
    if h : d ≤ now then
      match hnew : after d with
      | none => .ok (acc ++ [mkOrderTxn o tid d now], none)
      | some dnew =>
        if hgt : d < dnew then
          executeOrderLoop after o now dnew (tid + 1) (acc ++ [mkOrderTxn o tid d now])
        else .error (.assertionError "new_utc is None or new_utc > prev_utc")
    else .ok (acc, some d)
  termination_by d => (now + 1 - d).toNat
  decreasing_by omega

/-- Insert a batch of transactions one by one (each firing the balance
trigger and the table constraints). -/
def insertTxns (st : DBState) : List Txn → Except Err DBState
  | [] => .ok st
  | t :: ts =>
    match insertTxn st t with
    | .error e => .error e
    | .ok st' => insertTxns st' ts

/-- `Mpay._execute_order` (mpay.py lines 393–425): a null cursor means
an expired or disabled order and nothing happens; otherwise run the
loop, commit the created transactions and persist the new cursor on the
order row. -/
def executeOrder (after : String → Int → Option Int) (st : DBState) (o : Order)
    (now : Int) : Except Err DBState :=
  match o.dtNext with
  | none => .ok st
  | some d =>
    match executeOrderLoop (after o.rruleStr) o now d st.nextTxnId [] with
    | .error e => .error e
    | .ok (ts, fin) =>
      match insertTxns st ts with
      | .error e => .error e
      | .ok st' =>
        .ok { st' with
          orders := st'.orders.map
            (fun p => if p.id = o.id then { p with dtNext := fin } else p) }

/-- The SQL filter of `Mpay.execute_orders` (mpay.py line 430):
`dt_next_utc < utc_now` — strict, and NULL compares false. -/
def orderDue (now : Int) (o : Order) : Bool :=
  match o.dtNext with
  | some d => decide (d < now)
  | none => false

/-- Process the selected orders in sequence. -/
def executeOrdersGo (after : String → Int → Option Int) (now : Int) :
    List Order → DBState → Except Err DBState
  | [], st => .ok st
  | o :: rest, st =>
    match executeOrder after st o now with
    | .error e => .error e
    | .ok st' => executeOrdersGo after now rest st'

/-- `Mpay.execute_orders` (mpay.py lines 427–433): select the active
orders strictly due before `now` and execute each. -/
def executeOrders (after : String → Int → Option Int) (st : DBState)
    (now : Int) : Except Err DBState :=
  executeOrdersGo after now (st.orders.filter (orderDue now)) st

/-- The spec's per-order occurrence schedule, written from its words:
"while `dt_next_utc` is non-null and ≤ `now`", advancing by the
recurrence rule's strictly-next occurrence. -/
def occList (after : Int → Option Int) (now : Int) : Int → List Int
  | d =>
    if h : d ≤ now then
      d :: (match after d with
        | none => []
        | some dnew => if hgt : d < dnew then occList after now dnew else [])
    else []
  termination_by d => (now + 1 - d).toNat
  decreasing_by omega

/-- The fields every transaction created by the scheduler loop carries. -/
def orderTxnShape (o : Order) (now : Int) (t : Txn) : Prop :=
  t.userFrom = o.userFrom ∧ t.userTo = o.userTo ∧ t.amount = o.amount ∧
    t.standingOrder = some o.id ∧ t.userCreated = o.userFrom ∧
    t.dtCreated = now ∧ t.originalAmount = none ∧ t.originalCurrency = none ∧
    t.agentId = none ∧ t.note = none ∧ t.tags = []

/-- The remaining-tag-ids freshness invariant maintained by the
database: every tag's primary key, and every parent foreign key it
references, is below the autoincrement counter. -/
def TagsFresh (st : DBState) : Prop :=
  ∀ t ∈ st.tags, t.id < st.nextTagId ∧ ∀ p, t.parentId = some p → p < st.nextTagId

instance (st : DBState) : Decidable (TagsFresh st) := by
  unfold TagsFresh; infer_instance

/-- Modelled from the spec: the walk of `createOrGetHierarchicalTag`
(§4.3) — the implementation of `Mpay.add_tags` is called from the CLI
handler (cli.py `tag_add`) and the tests but is not present in
src/mpay/mpay.py.  "Same walk, but creates missing segments along the
way (non-interactively) rather than failing."  A created segment gets
the next free id and the current parent. -/
def createOrGetTagGo (st : DBState) (parent : Option Nat) (s : String) :
    List String → DBState × Tag
  | [] =>
    match st.tags.find? (tagMatches s parent) with
    | some t => (st, t)
    | none =>
      ({ st with
         tags := st.tags ++ [⟨st.nextTagId, s, parent⟩],
         nextTagId := st.nextTagId + 1 }, ⟨st.nextTagId, s, parent⟩)
  | s' :: rest' =>
    match st.tags.find? (tagMatches s parent) with
    | some t => createOrGetTagGo st (some t.id) s' rest'
    | none =>
      createOrGetTagGo
        { st with
          tags := st.tags ++ [⟨st.nextTagId, s, parent⟩],
          nextTagId := st.nextTagId + 1 }
        (some st.nextTagId) s' rest'

/-- Modelled from the spec: resolve every tag path for `addTags`,
auto-creating a missing path after confirmation (consistent with `pay`;
declining raises).  The `[]` split case cannot arise because
`pySplit` never returns an empty list. -/
def addResolve (confirm : String → Bool) :
    List String → DBState → Except Err (DBState × List Tag)
  | [], st => .ok (st, [])
  | n :: rest, st =>
    match resolveHierarchicalTag st.tags (pySplit (pyStrip n)) none with
    | some t =>
      match addResolve confirm rest st with
      | .ok (st', ts) => .ok (st', t :: ts)
      | .error e => .error e
    | none =>
      if confirm ("Tag " ++ n ++ " does not exist. Create?") then
        match pySplit (pyStrip n) with
        | [] => .error (.assertionError "empty tag path")
        | s :: segs =>
          match addResolve confirm rest (createOrGetTagGo st none s segs).1 with
          | .ok (st', ts) => .ok (st', (createOrGetTagGo st none s segs).2 :: ts)
          | .error e => .error e
      else .error (.mpayError ("tag " ++ n ++ " does not exist"))

/-- Add each id not already present, one at a time (the association
table's primary key forbids duplicates, so adding a present tag is a
no-op). -/
def addTagIds (cur : List Nat) : List Nat → List Nat
  | [] => cur
  | i :: is => addTagIds (if i ∈ cur then cur else cur ++ [i]) is

/-- Modelled from the spec: `addTags(transactionIds, tagPaths)` (§4.3) —
resolve each path (auto-creating on confirmation), then add the
association for the full cross-product of ids × resolved tags; adding an
already-present tag is a no-op, not an error. -/
def add_tags (st : DBState) (txnIds : List Nat) (tagNames : List String)
    (confirm : String → Bool) : Except Err DBState :=
  match addResolve confirm tagNames st with
  | .error e => .error e
  | .ok (st', ts) =>
    .ok { st' with
          txns := st'.txns.map (fun t =>
            if t.id ∈ txnIds then { t with tags := addTagIds t.tags (ts.map Tag.id) }
            else t) }

/-- Modelled from the spec: resolve every tag path for `removeTags` —
"auto-creating on removal path is NOT applicable"; an unresolvable path
is a NotFoundError. -/
def removeResolve : List String → List Tag → Except Err (List Tag)
  | [], _ => .ok []
  | n :: rest, tags =>
    match resolveHierarchicalTag tags (pySplit (pyStrip n)) none with
    | some t =>
      match removeResolve rest tags with
      | .ok ts => .ok (t :: ts)
      | .error e => .error e
    | none => .error (.mpayError ("tag " ++ n ++ " does not exist"))

/-- Modelled from the spec: `removeTags(transactionIds, tagPaths)`
(§4.3) — resolve each path, then remove the association for the full
cross-product; removing an absent tag is a no-op, not an error. -/
def remove_tags (st : DBState) (txnIds : List Nat) (tagNames : List String) :
    Except Err DBState :=
  match removeResolve tagNames st.tags with
  | .error e => .error e
  | .ok ts =>
    .ok { st with
          txns := st.txns.map (fun t =>
            if t.id ∈ txnIds then
              { t with tags := t.tags.filter (fun i => decide (i ∉ ts.map Tag.id)) }
            else t) }

theorem incomingSum_append (l₁ l₂ : List Txn) (uid : Nat) :
    incomingSum (l₁ ++ l₂) uid = incomingSum l₁ uid + incomingSum l₂ uid := by
  simp [incomingSum, List.filter_append]

theorem outgoingSum_append (l₁ l₂ : List Txn) (uid : Nat) :
    outgoingSum (l₁ ++ l₂) uid = outgoingSum l₁ uid + outgoingSum l₂ uid := by
  simp [outgoingSum, List.filter_append]

theorem incomingSum_single (t : Txn) (uid : Nat) :
    incomingSum [t] uid = if t.userTo = uid then t.amount else 0 := by
  by_cases h : t.userTo = uid <;> simp [incomingSum, h]

theorem outgoingSum_single (t : Txn) (uid : Nat) :
    outgoingSum [t] uid = if t.userFrom = uid then t.amount else 0 := by
  by_cases h : t.userFrom = uid <;> simp [outgoingSum, h]

theorem mem_sqlAddBalance {users : List User} {uid : Nat} {delta : Int} {u : User}
    (h : u ∈ sqlAddBalance users uid delta) :
    ∃ v ∈ users, u.id = v.id ∧
      u.balance = v.balance + (if v.id = uid then delta else 0) := by
  simp only [sqlAddBalance, List.mem_map] at h
  obtain ⟨v, hv, rfl⟩ := h
  refine ⟨v, hv, ?_⟩
  by_cases hvu : v.id = uid <;> simp [hvu]

theorem mem_insertTrigger {users : List User} {t : Txn} {u : User}
    (h : u ∈ insertTrigger users t) :
    ∃ v ∈ users, u.id = v.id ∧
      u.balance = v.balance - (if v.id = t.userFrom then t.amount else 0)
        + (if v.id = t.userTo then t.amount else 0) := by
  obtain ⟨w, hw, hwid, hwbal⟩ := mem_sqlAddBalance h
  obtain ⟨v, hv, hvid, hvbal⟩ := mem_sqlAddBalance hw
  refine ⟨v, hv, hwid.trans hvid, ?_⟩
  rw [hwbal, hvbal, hvid]
  split_ifs <;> omega

theorem mem_deleteTrigger {users : List User} {t : Txn} {u : User}
    (h : u ∈ deleteTrigger users t) :
    ∃ v ∈ users, u.id = v.id ∧
      u.balance = v.balance + (if v.id = t.userFrom then t.amount else 0)
        - (if v.id = t.userTo then t.amount else 0) := by
  obtain ⟨w, hw, hwid, hwbal⟩ := mem_sqlAddBalance h
  obtain ⟨v, hv, hvid, hvbal⟩ := mem_sqlAddBalance hw
  refine ⟨v, hv, hwid.trans hvid, ?_⟩
  rw [hwbal, hvbal, hvid]
  split_ifs <;> omega

theorem mem_updateTrigger {users : List User} {told tnew : Txn} {u : User}
    (h : u ∈ updateTrigger users told tnew) :
    ∃ v ∈ users, u.id = v.id ∧
      u.balance = v.balance + (if v.id = told.userFrom then told.amount else 0)
        - (if v.id = told.userTo then told.amount else 0)
        - (if v.id = tnew.userFrom then tnew.amount else 0)
        + (if v.id = tnew.userTo then tnew.amount else 0) := by
  obtain ⟨w₁, hw₁, hid₁, hbal₁⟩ := mem_sqlAddBalance h
  obtain ⟨w₂, hw₂, hid₂, hbal₂⟩ := mem_sqlAddBalance hw₁
  obtain ⟨w₃, hw₃, hid₃, hbal₃⟩ := mem_sqlAddBalance hw₂
  obtain ⟨v, hv, hid₄, hbal₄⟩ := mem_sqlAddBalance hw₃
  refine ⟨v, hv, (hid₁.trans hid₂).trans (hid₃.trans hid₄), ?_⟩
  rw [hbal₁, hbal₂, hbal₃, hbal₄, hid₂, hid₃, hid₄]
  split_ifs <;> omega

/-- C1: after each of the three balance-maintenance triggers fires for an
insert, update (including one changing `user_from`, `user_to` and
`converted_amount` at once) or delete of a transaction row, every user's
stored balance again equals incoming-sum minus outgoing-sum over the
resulting transaction table. -/
theorem triggers_preserve_balance_invariant :
    (∀ (users : List User) (txns : List Txn) (t : Txn),
      BalInv users txns → BalInv (insertTrigger users t) (txns ++ [t]))
    ∧ (∀ (users : List User) (pre post : List Txn) (told : Txn),
      BalInv users (pre ++ told :: post) → BalInv (deleteTrigger users told) (pre ++ post))
    ∧ (∀ (users : List User) (pre post : List Txn) (told tnew : Txn),
      BalInv users (pre ++ told :: post) →
        BalInv (updateTrigger users told tnew) (pre ++ tnew :: post)) := by
  refine ⟨?_, ?_, ?_⟩
  · intro users txns t hinv u hu
    obtain ⟨v, hv, hid, hbal⟩ := mem_insertTrigger hu
    have := hinv v hv
    rw [hbal, hid, this, incomingSum_append, outgoingSum_append,
      incomingSum_single, outgoingSum_single]
    omega
  · intro users pre post told hinv u hu
    obtain ⟨v, hv, hid, hbal⟩ := mem_deleteTrigger hu
    have := hinv v hv
    have hpre : pre ++ told :: post = pre ++ [told] ++ post := by simp
    rw [hpre] at this
    rw [incomingSum_append, incomingSum_append, incomingSum_single,
      outgoingSum_append, outgoingSum_append, outgoingSum_single] at this
    rw [hbal, hid, incomingSum_append, outgoingSum_append, this]
    omega
  · intro users pre post told tnew hinv u hu
    obtain ⟨v, hv, hid, hbal⟩ := mem_updateTrigger hu
    have := hinv v hv
    have hpre : pre ++ told :: post = pre ++ [told] ++ post := by simp
    rw [hpre] at this
    rw [incomingSum_append, incomingSum_append, incomingSum_single,
      outgoingSum_append, outgoingSum_append, outgoingSum_single] at this
    have hnew : pre ++ tnew :: post = pre ++ [tnew] ++ post := by simp
    rw [hbal, hid, hnew, incomingSum_append, incomingSum_append, incomingSum_single,
      outgoingSum_append, outgoingSum_append, outgoingSum_single, this]
    omega

/-- Concrete instantiation of `triggers_preserve_balance_invariant`: an
update that swaps both endpoints and changes the amount keeps the stored
balances equal to the recomputed sums. -/
theorem triggers_preserve_balance_invariant_witness :
    BalInv
      (updateTrigger
        [⟨1, "alice", -12300⟩, ⟨2, "bob", 12300⟩]
        ⟨7, 1, 2, 1, 12300, none, none, none, none, none, 0, 0, []⟩
        ⟨7, 2, 1, 1, 500, none, none, none, none, none, 0, 0, []⟩)
      ([] ++ ⟨7, 2, 1, 1, 500, none, none, none, none, none, 0, 0, []⟩ :: []) :=
  triggers_preserve_balance_invariant.2.2
    [⟨1, "alice", -12300⟩, ⟨2, "bob", 12300⟩] [] []
    ⟨7, 1, 2, 1, 12300, none, none, none, none, none, 0, 0, []⟩
    ⟨7, 2, 1, 1, 500, none, none, none, none, none, 0, 0, []⟩
    (by decide)

theorem checkUsers_ok_iff (txns : List Txn) (users : List User) :
    checkUsers txns users = .ok () ↔
      ∀ u ∈ users, u.balance = incomingSum txns u.id - outgoingSum txns u.id := by
  induction users with
  | nil => simp [checkUsers]
  | cons u rest ih =>
    rw [checkUsers]
    by_cases h : incomingSum txns u.id - outgoingSum txns u.id ≠ u.balance
    · rw [if_pos h]
      constructor
      · intro hc; cases hc
      · intro hall; exact absurd (hall u (by simp)).symm h
    · rw [if_neg h, ih]
      constructor
      · intro hall v hv
        rcases List.mem_cons.mp hv with rfl | hv'
        · omega
        · exact hall v hv'
      · intro hall v hv
        exact hall v (by simp [hv])

theorem checkUsers_first_mismatch (txns : List Txn) (pre post : List User) (u : User)
    (hpre : ∀ v ∈ pre, v.balance = incomingSum txns v.id - outgoingSum txns v.id)
    (hu : u.balance ≠ incomingSum txns u.id - outgoingSum txns u.id) :
    checkUsers txns (pre ++ u :: post) = .error (.userBalanceMismatch u.name) := by
  induction pre with
  | nil =>
    have h : incomingSum txns u.id - outgoingSum txns u.id ≠ u.balance := fun h => hu h.symm
    simp [checkUsers, h]
  | cons v rest ih =>
    have hv := hpre v (by simp)
    have hcond : ¬ incomingSum txns v.id - outgoingSum txns v.id ≠ v.balance := by omega
    rw [List.cons_append, checkUsers, if_neg hcond]
    exact ih fun w hw => hpre w (by simp [hw])

/-- C2: `check` succeeds iff no violation exists — it fails exactly when
the stored balances sum to a nonzero value over a nonempty user table,
or some user's stored balance differs from the recomputed
incoming-minus-outgoing sum; with zero users it always succeeds; when
the sum test passes and a mismatch exists, the error names the first
mismatching user; and a successful check forces a user with no
transactions to have balance exactly 0. -/
theorem check_spec (users : List User) (txns : List Txn) :
    (check users txns = .ok () ↔
      ((users = [] ∨ (users.map User.balance).sum = 0) ∧
        ∀ u ∈ users, u.balance = incomingSum txns u.id - outgoingSum txns u.id))
    ∧ (users = [] → check users txns = .ok ())
    ∧ (∀ pre post u, users = pre ++ u :: post →
        (users.map User.balance).sum = 0 →
        (∀ v ∈ pre, v.balance = incomingSum txns v.id - outgoingSum txns v.id) →
        u.balance ≠ incomingSum txns u.id - outgoingSum txns u.id →
        check users txns = .error (.userBalanceMismatch u.name))
    ∧ (check users txns = .ok () →
        ∀ u ∈ users, (∀ t ∈ txns, t.userFrom ≠ u.id ∧ t.userTo ≠ u.id) →
          u.balance = 0) := by
  refine ⟨?_, ?_, ?_, ?_⟩
  · match users with
    | [] => simp [check, balanceSumScalar, checkUsers]
    | v :: rest =>
      simp only [check, balanceSumScalar]
      by_cases hs : ((v :: rest).map User.balance).sum = 0
      · rw [if_neg (by simpa using hs), checkUsers_ok_iff]
        constructor
        · intro h; exact ⟨Or.inr hs, h⟩
        · intro h; exact h.2
      · refine iff_of_false ?_ ?_
        · rw [if_pos hs]; simp
        · rintro ⟨h1 | h2, -⟩
          · cases h1
          · exact hs h2
  · intro h
    subst h
    simp [check, balanceSumScalar, checkUsers]
  · intro pre post u hsplit hsum hpre hu
    subst hsplit
    have hb : balanceSumScalar (pre ++ u :: post) = some 0 := by
      unfold balanceSumScalar
      split
      · simp_all
      · rw [hsum]
    simp only [check, hb]
    rw [if_neg (by norm_num)]
    exact checkUsers_first_mismatch txns pre post u hpre hu
  · intro hok u hu hnone
    have hchk : checkUsers txns users = .ok () := by
      unfold check at hok
      split at hok
      · split at hok
        · exact absurd hok (by simp)
        · exact hok
      · exact hok
    have hbal := ((checkUsers_ok_iff txns users).mp hchk) u hu
    have hin : incomingSum txns u.id = 0 := by
      unfold incomingSum
      have hnil : txns.filter (fun t => t.userTo = u.id) = [] := by
        apply List.filter_eq_nil_iff.mpr
        intro t ht
        simpa using (hnone t ht).2
      simp [hnil]
    have hout : outgoingSum txns u.id = 0 := by
      unfold outgoingSum
      have hnil : txns.filter (fun t => t.userFrom = u.id) = [] := by
        apply List.filter_eq_nil_iff.mpr
        intro t ht
        simpa using (hnone t ht).1
      simp [hnil]
    omega

/-- Concrete instantiation of `check_spec`: in a two-user store whose
balances match the single recorded transaction, `check` succeeds; and on
a store whose first user's balance is off, `check` reports that user. -/
theorem check_spec_witness :
    check [⟨1, "alice", -12300⟩, ⟨2, "bob", 12300⟩]
        [⟨1, 1, 2, 1, 12300, none, none, none, none, none, 0, 0, []⟩] = .ok ()
    ∧ check [⟨1, "u1", 12300⟩, ⟨2, "u2", -12300⟩] [] =
        .error (.userBalanceMismatch "u1") :=
  ⟨((check_spec [⟨1, "alice", -12300⟩, ⟨2, "bob", 12300⟩]
      [⟨1, 1, 2, 1, 12300, none, none, none, none, none, 0, 0, []⟩]).1).mpr
      (by decide),
   (check_spec [⟨1, "u1", 12300⟩, ⟨2, "u2", -12300⟩] []).2.2.1
      [] [⟨2, "u2", -12300⟩] ⟨1, "u1", 12300⟩ (by decide) (by decide)
      (by decide) (by decide)⟩

theorem queryOne_filter_tag (nm : String) (parent : Option Nat) (l : List Tag)
    (h : l.Pairwise (fun a b => ¬(a.name = b.name ∧ a.parentId = b.parentId))) :
    queryOne (l.filter (tagMatches nm parent)) =
      match l.find? (tagMatches nm parent) with
      | some t => .ok t
      | none => .error .noResultFound := by
  induction l with
  | nil => simp [queryOne]
  | cons a rest ih =>
    rcases List.pairwise_cons.mp h with ⟨ha, hrest⟩
    by_cases hm : tagMatches nm parent a
    · have hma := of_decide_eq_true hm
      have hnil : rest.filter (tagMatches nm parent) = [] := by
        apply List.filter_eq_nil_iff.mpr
        intro b hb hmb
        have hmb' := of_decide_eq_true hmb
        exact ha b hb ⟨hma.1.trans hmb'.1.symm, hma.2.trans hmb'.2.symm⟩
      rw [List.filter_cons_of_pos hm, hnil, List.find?_cons_of_pos _ hm]
      rfl
    · rw [List.filter_cons_of_neg (by simpa using hm),
        List.find?_cons_of_neg _ (by simpa using hm)]
      exact ih hrest

theorem findTagGo_eq_resolve (tags : List Tag)
    (h : tags.Pairwise (fun a b => ¬(a.name = b.name ∧ a.parentId = b.parentId))) :
    ∀ (path : List String) (parent : Option Nat),
      findTagGo tags path parent =
        match resolveHierarchicalTag tags path parent with
        | some t => .ok t
        | none => .error .noResultFound := by
  intro path
  induction path with
  | nil => intro parent; rfl
  | cons s tail ih =>
    intro parent
    match tail with
    | [] =>
      rw [findTagGo, resolveHierarchicalTag, queryOne_filter_tag s parent tags h]
    | s' :: rest =>
      rw [findTagGo, resolveHierarchicalTag, queryOne_filter_tag s parent tags h]
      match tags.find? (tagMatches s parent) with
      | none => rfl
      | some cur => exact ih (some cur.id)

theorem resolve_parentId (tags : List Tag) :
    ∀ (path : List String) (parent : Option Nat) (t : Tag),
      resolveHierarchicalTag tags path parent = some t →
      (path.length = 1 → t.parentId = parent) ∧
      (2 ≤ path.length → ∃ pid, t.parentId = some pid) := by
  intro path
  induction path with
  | nil => intro parent t hres; cases hres
  | cons s tail ih =>
    intro parent t hres
    match tail with
    | [] =>
      rw [resolveHierarchicalTag] at hres
      have hp := List.find?_some hres
      simp only [tagMatches, decide_eq_true_eq] at hp
      exact ⟨fun _ => hp.2, fun h2 => by simp at h2⟩
    | s' :: rest =>
      rw [resolveHierarchicalTag] at hres
      constructor
      · intro h1; simp at h1
      · intro _
        match hcur : tags.find? (tagMatches s parent) with
        | none => rw [hcur] at hres; cases hres
        | some cur =>
          rw [hcur] at hres
          match rest with
          | [] =>
            have h1 := (ih (some cur.id) t hres).1 (by simp)
            exact ⟨cur.id, h1⟩
          | r :: rs =>
            exact (ih (some cur.id) t hres).2 (by simp)

/-- C8: under the tag-table uniqueness constraints, `find_tag` agrees
exactly with the spec's walk `resolveHierarchicalTag` (so it succeeds on
a path precisely when every successive (name, parent) segment exists and
raises `NoResultFound` as soon as one is missing), and a path of two or
more segments can only resolve to a tag with a non-null parent — never
to a root-level tag of the same leaf name. -/
theorem find_tag_spec (tags : List Tag) (hname : String) (hwf : TagsWF tags) :
    (∀ t, find_tag tags hname = .ok t ↔
        resolveHierarchicalTag tags (pySplit (pyStrip hname)) none = some t)
    ∧ (find_tag tags hname = .error .noResultFound ↔
        resolveHierarchicalTag tags (pySplit (pyStrip hname)) none = none)
    ∧ (∀ t, find_tag tags hname = .ok t → 2 ≤ (pySplit (pyStrip hname)).length →
        ∃ pid, t.parentId = some pid) := by
  have heq := findTagGo_eq_resolve tags hwf.2 (pySplit (pyStrip hname)) none
  refine ⟨?_, ?_, ?_⟩
  · intro t
    rw [find_tag, heq]
    match resolveHierarchicalTag tags (pySplit (pyStrip hname)) none with
    | some t' => simp
    | none => simp
  · rw [find_tag, heq]
    match resolveHierarchicalTag tags (pySplit (pyStrip hname)) none with
    | some t' => simp
    | none => simp
  · intro t hok hlen
    rw [find_tag, heq] at hok
    match hres : resolveHierarchicalTag tags (pySplit (pyStrip hname)) none with
    | none => rw [hres] at hok; cases hok
    | some t' =>
      rw [hres] at hok
      cases hok
      exact (resolve_parentId tags (pySplit (pyStrip hname)) none t hres).2 hlen

/-- Concrete instantiation of `find_tag_spec`: with a root tag "tag2"
and a distinct nested chain a/b/tag2 in the table, resolving "a/b/tag2"
returns the nested tag (id 4, parent b), not the root one (id 1). -/
theorem find_tag_spec_witness :
    find_tag [⟨1, "tag2", none⟩, ⟨2, "a", none⟩, ⟨3, "b", some 2⟩, ⟨4, "tag2", some 3⟩]
        "a/b/tag2" = .ok ⟨4, "tag2", some 3⟩ :=
  ((find_tag_spec [⟨1, "tag2", none⟩, ⟨2, "a", none⟩, ⟨3, "b", some 2⟩, ⟨4, "tag2", some 3⟩]
      "a/b/tag2" (by decide)).1 ⟨4, "tag2", some 3⟩).mpr (by decide)

theorem payAgent_ok_elim {st : DBState} {confirm : String → Bool}
    {agentName : Option String} {st₂ : DBState} {agentId : Option Nat}
    (h : payAgent st confirm agentName = .ok (st₂, agentId)) :
    st₂.users = st.users ∧ st₂.txns = st.txns ∧ st₂.tags = st.tags ∧
      st₂.currencies = st.currencies ∧ st₂.orders = st.orders ∧
      st₂.nextTxnId = st.nextTxnId ∧ st₂.nextTagId = st.nextTagId ∧
      st₂.nextOrderId = st.nextOrderId := by
  match agentName with
  | none =>
    rw [payAgent] at h
    cases h
    exact ⟨rfl, rfl, rfl, rfl, rfl, rfl, rfl, rfl⟩
  | some an =>
    rw [payAgent] at h
    split at h
    · cases h
    · split at h
      · cases h
      · cases h
        exact ⟨rfl, rfl, rfl, rfl, rfl, rfl, rfl, rfl⟩
      · split at h
        · cases h
          exact ⟨rfl, rfl, rfl, rfl, rfl, rfl, rfl, rfl⟩
        · cases h

theorem createTagGo_ok_elim :
    ∀ (path : List String) (parent : Option Nat) (st st₂ : DBState) (t : Tag),
      createTagGo path parent st = .ok (st₂, t) →
      st₂.users = st.users ∧ st₂.txns = st.txns ∧ st₂.agents = st.agents ∧
        st₂.currencies = st.currencies ∧ st₂.orders = st.orders ∧
        st₂.nextTxnId = st.nextTxnId ∧ st₂.nextAgentId = st.nextAgentId ∧
        st₂.nextOrderId = st.nextOrderId := by
  intro path
  induction path with
  | nil => intro parent st st₂ t h; cases h
  | cons s rest ih =>
    intro parent st st₂ t h
    rw [createTagGo] at h
    split at h
    · cases h
    · split at h
      · cases h
        exact ⟨rfl, rfl, rfl, rfl, rfl, rfl, rfl, rfl⟩
      · exact ih _ _ _ _ h
    · split at h
      · cases h
      · split at h
        · split at h
          · cases h
            exact ⟨rfl, rfl, rfl, rfl, rfl, rfl, rfl, rfl⟩
          · dsimp only [] at h
            have h1 := ih _ _ _ _ h
            exact h1
        · cases h

theorem payResolveTags_ok_elim {confirm : String → Bool} :
    ∀ (tagNames : List String) (st st₃ : DBState) (tagList : List Tag),
      payResolveTags confirm tagNames st = .ok (st₃, tagList) →
      st₃.users = st.users ∧ st₃.txns = st.txns ∧ st₃.agents = st.agents ∧
        st₃.currencies = st.currencies ∧ st₃.orders = st.orders ∧
        st₃.nextTxnId = st.nextTxnId ∧ st₃.nextAgentId = st.nextAgentId ∧
        st₃.nextOrderId = st.nextOrderId := by
  intro tagNames
  induction tagNames with
  | nil =>
    intro st st₃ tagList h
    rw [payResolveTags] at h
    cases h
    exact ⟨rfl, rfl, rfl, rfl, rfl, rfl, rfl, rfl⟩
  | cons n rest ih =>
    intro st st₃ tagList h
    rw [payResolveTags] at h
    split at h
    · split at h
      · cases h
        exact ih _ _ _ (by assumption)
      · cases h
    · split at h
      · split at h
        · cases h
        · rename_i st' t hcreate
          split at h
          · cases h
            have h1 := createTagGo_ok_elim _ _ _ _ _ hcreate
            have h2 := ih _ _ _ (by assumption)
            exact ⟨h2.1.trans h1.1, h2.2.1.trans h1.2.1, h2.2.2.1.trans h1.2.2.1,
              h2.2.2.2.1.trans h1.2.2.2.1, h2.2.2.2.2.1.trans h1.2.2.2.2.1,
              h2.2.2.2.2.2.1.trans h1.2.2.2.2.2.1,
              h2.2.2.2.2.2.2.1.trans h1.2.2.2.2.2.2.1,
              h2.2.2.2.2.2.2.2.trans h1.2.2.2.2.2.2.2⟩
          · cases h
      · cases h
    · cases h

theorem insertTxn_ok_elim {st : DBState} {t : Txn} {st' : DBState}
    (h : insertTxn st t = .ok st') :
    st'.txns = st.txns ++ [t] ∧ st'.users = insertTrigger st.users t ∧
      st'.tags = st.tags ∧ st'.agents = st.agents ∧ st'.orders = st.orders ∧
      t.userFrom ≠ t.userTo ∧ t.dtDue ≤ t.dtCreated ∧ 0 ≤ t.amount := by
  rw [insertTxn] at h
  split at h
  · cases h
  · split at h
    · cases h
    · split at h
      · cases h
      · split at h
        · cases h
        · split at h
          · cases h
          · cases h
            refine ⟨rfl, rfl, rfl, rfl, rfl, ?_, by omega, by omega⟩
            assumption

/-- Every way `pay` can succeed, decomposed into the successive steps of
the source: sanitation, the two user lookups, the self-payment guard,
currency, agent and tag resolution, and the final insert (with the
direction flip applied to the stored row).  The returned value is always
`none`. -/
theorem pay_ok_elim {cfgUser : String} {now : Int} {st : DBState}
    {recipientName : String} {convertedAmount : Int} {due : Option Int}
    {originalCurrency : Option String} {originalAmount : Option Int}
    {agentName : Option String} {note : Option String} {tagNames : List String}
    {confirm : String → Bool} {st' : DBState} {ret : Option Nat}
    (hok : pay cfgUser now st recipientName convertedAmount due originalCurrency
      originalAmount agentName note tagNames confirm = .ok (st', ret)) :
    ∃ rn sender recipient currencyId st₂ agentId st₃ tagList,
      sanitize_user_name recipientName = .ok rn ∧
      oneOrMpay (st.users.filter (fun u => decide (u.name = cfgUser)))
        "current user does not exist in the database" = .ok sender ∧
      oneOrMpay (st.users.filter (fun u => decide (u.name = rn)))
        "recipient user does not exist" = .ok recipient ∧
      sender ≠ recipient ∧
      payCurrency st originalCurrency = .ok currencyId ∧
      payAgent st confirm agentName = .ok (st₂, agentId) ∧
      payResolveTags confirm tagNames st₂ = .ok (st₃, tagList) ∧
      insertTxn st₃
        { id := st₃.nextTxnId,
          userFrom := (if 0 ≤ convertedAmount then sender else recipient).id,
          userTo := (if 0 ≤ convertedAmount then recipient else sender).id,
          userCreated := sender.id, amount := |convertedAmount|,
          originalAmount := originalAmount.map (fun a => |a|),
          originalCurrency := currencyId, standingOrder := none,
          agentId := agentId, note := note, dtCreated := now,
          dtDue := due.getD now, tags := tagList.map Tag.id } = .ok st' ∧
      ret = none := by
  rw [pay] at hok
  split at hok
  · cases hok
  · rename_i rn hsan
    split at hok
    · cases hok
    · rename_i sender hsender
      split at hok
      · cases hok
      · rename_i recipient hrecipient
        split at hok
        · cases hok
        · rename_i hsr
          split at hok
          · cases hok
          · rename_i currencyId hcurrency
            split at hok
            · cases hok
            · rename_i st₂ agentId hagent
              split at hok
              · cases hok
              · rename_i st₃ tagList htags
                split at hok
                · rename_i hc
                  dsimp only [] at hok
                  split at hok
                  · cases hok
                  · rename_i st₄ hins
                    cases hok
                    refine ⟨rn, sender, recipient, currencyId, st₂, agentId,
                      st₃, tagList, hsan, hsender, hrecipient, hsr, hcurrency,
                      hagent, htags, ?_, rfl⟩
                    rw [if_pos hc, if_pos hc]
                    exact hins
                · rename_i hc
                  dsimp only [] at hok
                  split at hok
                  · cases hok
                  · rename_i st₄ hins
                    cases hok
                    refine ⟨rn, sender, recipient, currencyId, st₂, agentId,
                      st₃, tagList, hsan, hsender, hrecipient, hsr, hcurrency,
                      hagent, htags, ?_, rfl⟩
                    rw [if_neg hc, if_neg hc]
                    exact hins

theorem oneOrMpay_ok_msg {α : Type} {l : List α} {msg : String} {x : α}
    (h : oneOrMpay l msg = .ok x) (msg' : String) : oneOrMpay l msg' = .ok x := by
  unfold oneOrMpay at h ⊢
  match hq : queryOne l with
  | .ok y => rw [hq] at h; cases h; rfl
  | .error .noResultFound => rw [hq] at h; cases h
  | .error .multipleResultsFound => rw [hq] at h; cases h

theorem oneOrMpay_error_shape {α : Type} {l : List α} {msg : String} {e : Err}
    (h : oneOrMpay l msg = .error e) : e = .mpayError msg ∨ e = .multipleResults := by
  unfold oneOrMpay at h
  match hq : queryOne l with
  | .ok y => rw [hq] at h; cases h
  | .error .noResultFound => rw [hq] at h; cases h; exact Or.inl rfl
  | .error .multipleResultsFound => rw [hq] at h; cases h; exact Or.inr rfl

theorem insertOrder_error_shape {st : DBState} {o : Order} {e : Err}
    (h : insertOrder st o = .error e) : ∃ m, e = .integrityError m := by
  unfold insertOrder at h
  split at h
  · cases h; exact ⟨_, rfl⟩
  · split at h
    · cases h; exact ⟨_, rfl⟩
    · split at h
      · cases h; exact ⟨_, rfl⟩
      · cases h

/-- C5: whenever `pay` succeeds with a negative convertedAmount, the
stored transaction has the direction flipped — the configured current
user (the resolved sender row) becomes `user_to` and the named recipient
becomes `user_from` — with `converted_amount` the absolute value of the
given amount, while `user_created` remains the current user. -/
theorem pay_negative_flips_direction {cfgUser : String} {now : Int} {st : DBState}
    {recipientName : String} {convertedAmount : Int} {due : Option Int}
    {originalCurrency : Option String} {originalAmount : Option Int}
    {agentName : Option String} {note : Option String} {tagNames : List String}
    {confirm : String → Bool} {st' : DBState} {ret : Option Nat}
    (hneg : convertedAmount < 0)
    (hok : pay cfgUser now st recipientName convertedAmount due originalCurrency
      originalAmount agentName note tagNames confirm = .ok (st', ret)) :
    ∃ rn sender recipient t,
      sanitize_user_name recipientName = .ok rn ∧
      oneOrMpay (st.users.filter (fun u => decide (u.name = cfgUser)))
        "current user does not exist in the database" = .ok sender ∧
      oneOrMpay (st.users.filter (fun u => decide (u.name = rn)))
        "recipient user does not exist" = .ok recipient ∧
      st'.txns = st.txns ++ [t] ∧
      t.userFrom = recipient.id ∧ t.userTo = sender.id ∧
      t.amount = -convertedAmount ∧ t.userCreated = sender.id := by
  obtain ⟨rn, sender, recipient, currencyId, st₂, agentId, st₃, tagList, hsan,
    hsender, hrecipient, hsr, hcur, hagent, htags, hins, hret⟩ := pay_ok_elim hok
  have h2 := payAgent_ok_elim hagent
  have h3 := payResolveTags_ok_elim _ _ _ _ htags
  have h4 := insertTxn_ok_elim hins
  have hcn : ¬ 0 ≤ convertedAmount := by omega
  refine ⟨rn, sender, recipient,
    { id := st₃.nextTxnId,
      userFrom := (if 0 ≤ convertedAmount then sender else recipient).id,
      userTo := (if 0 ≤ convertedAmount then recipient else sender).id,
      userCreated := sender.id, amount := |convertedAmount|,
      originalAmount := originalAmount.map (fun a => |a|),
      originalCurrency := currencyId, standingOrder := none,
      agentId := agentId, note := note, dtCreated := now,
      dtDue := due.getD now, tags := tagList.map Tag.id },
    hsan, hsender, hrecipient, ?_, ?_, ?_, ?_, rfl⟩
  · rw [h4.1, h3.2.1, h2.2.1]
  · simp [if_neg hcn]
  · simp [if_neg hcn]
  · exact abs_of_neg hneg

/-- Concrete instantiation of `pay_negative_flips_direction`: paying
-10.300 to test2 stores a transaction from test2 (id 2) to test1 (id 1)
of amount 10.300, created by test1. -/
theorem pay_negative_flips_direction_witness :
    ∃ (rn : String) (sender recipient : User) (t : Txn),
      sanitize_user_name "test2" = .ok rn ∧
      oneOrMpay (List.filter (fun u => decide (u.name = "test1"))
        ([⟨1, "test1", 0⟩, ⟨2, "test2", 0⟩] : List User))
        "current user does not exist in the database" = .ok sender ∧
      oneOrMpay (List.filter (fun u => decide (u.name = rn))
        ([⟨1, "test1", 0⟩, ⟨2, "test2", 0⟩] : List User))
        "recipient user does not exist" = .ok recipient ∧
      ([⟨1, 2, 1, 1, 10300, none, none, none, none, none, 0, 0, []⟩] : List Txn)
        = [] ++ [t] ∧
      t.userFrom = recipient.id ∧ t.userTo = sender.id ∧
      t.amount = -(-10300) ∧ t.userCreated = sender.id :=
  pay_negative_flips_direction (by decide)
    (by decide :
      pay "test1" 0 ⟨[⟨1, "test1", 0⟩, ⟨2, "test2", 0⟩], [], [], [], [], [], 1, 1, 1, 1⟩
        "test2" (-10300) (some 0) none none none none [] (fun _ => true)
      = .ok (⟨[⟨1, "test1", 10300⟩, ⟨2, "test2", -10300⟩], [], [], [],
          [⟨1, 2, 1, 1, 10300, none, none, none, none, none, 0, 0, []⟩], [],
          2, 1, 1, 1⟩, none))

/-- C7 (counterexample): with user "test1" configured as the current
user, `pay` to "test1" raises the plain `MpayException` self-payment
rejection and `create_order` to "test1" with a positive amount fails via
the store's `user_from <> user_to` check constraint (an IntegrityError) —
neither failure is a ValidationError (`MpayValueError`), so the claim
that both always raise ValidationError is false. -/
theorem self_recipient_validation_error_refuted :
    pay "test1" 0 ⟨[⟨1, "test1", 0⟩], [], [], [], [], [], 1, 1, 1, 1⟩ "test1" 12300
        (some 0) none none none none [] (fun _ => true)
      = .error (.mpayError "recipient must not be the same as the current user")
    ∧ create_order "test1" ⟨[⟨1, "test1", 0⟩], [], [], [], [], [], 1, 1, 1, 1⟩
        "o1" "test1" 1000 "RRULE:FREQ=DAILY" 0 none
      = .error (.integrityError "user_from_to_different")
    ∧ Err.isValidationError (.mpayError "recipient must not be the same as the current user") = false
    ∧ Err.isValidationError (.integrityError "user_from_to_different") = false := by
  refine ⟨by decide, by decide, rfl, rfl⟩

/-- C7 (amended): whenever the sanitized recipient name is the
configured current user's name and that user resolves, `pay` always
fails with the engine's self-payment `MpayException` (before any write),
and `create_order` always fails — with the amount `MpayValueError` when
amount ≤ 0, and with the store's `user_from <> user_to` check-constraint
IntegrityError when amount > 0; in no case is a row created. -/
theorem self_recipient_always_rejected {cfgUser : String} {st : DBState}
    {sender : User}
    (hsender : oneOrMpay (st.users.filter (fun u => decide (u.name = cfgUser)))
      "current user does not exist in the database" = .ok sender) :
    (∀ now convertedAmount due originalCurrency originalAmount agentName note
        tagNames confirm recipientName,
      sanitize_user_name recipientName = .ok cfgUser →
      pay cfgUser now st recipientName convertedAmount due originalCurrency
        originalAmount agentName note tagNames confirm
        = .error (.mpayError "recipient must not be the same as the current user"))
    ∧ (∀ name recipientName amount rruleStr firstOcc note nm,
      sanitize_order_name name = .ok nm →
      sanitize_user_name recipientName = .ok cfgUser →
      (amount ≤ 0 →
        create_order cfgUser st name recipientName amount rruleStr firstOcc note
          = .error (.valueError "amount must be greater than zero"))
      ∧ (0 < amount →
        create_order cfgUser st name recipientName amount rruleStr firstOcc note
          = .error (.integrityError "user_from_to_different"))) := by
  have hrec := oneOrMpay_ok_msg hsender "recipient user does not exist"
  constructor
  · intro now convertedAmount due originalCurrency originalAmount agentName note
      tagNames confirm recipientName hsan
    rw [pay]
    simp only [hsan, hsender, hrec]
    simp
  · intro name recipientName amount rruleStr firstOcc note nm hname hsan
    constructor
    · intro hle
      rw [create_order]
      simp only [hname, hsan, if_pos hle]
    · intro hgt
      rw [create_order]
      simp only [hname, hsan, if_neg (by omega : ¬ amount ≤ 0), hsender, hrec]
      rw [insertOrder]
      simp

/-- Concrete instantiation of `self_recipient_always_rejected` at user
"test1": paying oneself fails with the self-payment MpayException, and a
same-user order with amount 0 fails the amount validation while one with
amount 1.000 fails the store constraint. -/
theorem self_recipient_always_rejected_witness :
    pay "test1" 0 ⟨[⟨1, "test1", 0⟩], [], [], [], [], [], 1, 1, 1, 1⟩ "test1" 0
        none none none none none [] (fun _ => true)
      = .error (.mpayError "recipient must not be the same as the current user")
    ∧ create_order "test1" ⟨[⟨1, "test1", 0⟩], [], [], [], [], [], 1, 1, 1, 1⟩
        "o1" "test1" 0 "RRULE:FREQ=DAILY" 0 none
      = .error (.valueError "amount must be greater than zero")
    ∧ create_order "test1" ⟨[⟨1, "test1", 0⟩], [], [], [], [], [], 1, 1, 1, 1⟩
        "o1" "test1" 1000 "RRULE:FREQ=DAILY" 0 none
      = .error (.integrityError "user_from_to_different") :=
  ⟨(@self_recipient_always_rejected "test1"
      ⟨[⟨1, "test1", 0⟩], [], [], [], [], [], 1, 1, 1, 1⟩ ⟨1, "test1", 0⟩
      (by decide)).1 0 0 none none none none none [] (fun _ => true) "test1"
      (by decide),
   ((@self_recipient_always_rejected "test1"
      ⟨[⟨1, "test1", 0⟩], [], [], [], [], [], 1, 1, 1, 1⟩ ⟨1, "test1", 0⟩
      (by decide)).2 "o1" "test1" 0
      "RRULE:FREQ=DAILY" 0 none "o1" (by decide) (by decide)).1 (by decide),
   ((@self_recipient_always_rejected "test1"
      ⟨[⟨1, "test1", 0⟩], [], [], [], [], [], 1, 1, 1, 1⟩ ⟨1, "test1", 0⟩
      (by decide)).2 "o1" "test1" 1000
      "RRULE:FREQ=DAILY" 0 none "o1" (by decide) (by decide)).2 (by decide)⟩

/-- C6: with well-formed names, `create_order` raises a ValidationError
(`MpayValueError`) exactly when the given amount is ≤ 0, whereas `pay`
performs no amount validation at all: under the same resolution
hypotheses it succeeds for every convertedAmount, zero and negative
included. -/
theorem amount_validation_contrast :
    (∀ cfgUser st name recipientName amount rruleStr firstOcc note nm rn,
      sanitize_order_name name = .ok nm →
      sanitize_user_name recipientName = .ok rn →
      ((∃ m, create_order cfgUser st name recipientName amount rruleStr firstOcc note
          = .error (.valueError m)) ↔ amount ≤ 0))
    ∧ (∀ cfgUser now st recipientName convertedAmount due note confirm rn sender recipient,
      sanitize_user_name recipientName = .ok rn →
      oneOrMpay (st.users.filter (fun u => decide (u.name = cfgUser)))
        "current user does not exist in the database" = .ok sender →
      oneOrMpay (st.users.filter (fun u => decide (u.name = rn)))
        "recipient user does not exist" = .ok recipient →
      sender ≠ recipient → sender.id ≠ recipient.id →
      due.getD now ≤ now →
      ∃ st', pay cfgUser now st recipientName convertedAmount due none none none
        note [] confirm = .ok (st', none)) := by
  constructor
  · intro cfgUser st name recipientName amount rruleStr firstOcc note nm rn
      hname hrn
    constructor
    · rintro ⟨m, hm⟩
      by_contra hgt
      rw [create_order] at hm
      simp only [hname, hrn, if_neg hgt] at hm
      split at hm
      · rename_i e he
        rcases oneOrMpay_error_shape he with h | h <;> (rw [h] at hm; cases hm)
      · split at hm
        · rename_i e he
          rcases oneOrMpay_error_shape he with h | h <;> (rw [h] at hm; cases hm)
        · obtain ⟨m', hm'⟩ := insertOrder_error_shape hm
          cases hm'
    · intro hle
      refine ⟨"amount must be greater than zero", ?_⟩
      rw [create_order]
      simp only [hname, hrn, if_pos hle]
  · intro cfgUser now st recipientName convertedAmount due note confirm rn sender
      recipient hrn hsender hrecipient hsr hid hdue
    rw [pay]
    simp only [hrn, hsender, hrecipient, if_neg hsr]
    simp only [payCurrency, payAgent, payResolveTags]
    by_cases hc : 0 ≤ convertedAmount
    · simp only [if_pos hc]
      rw [insertTxn]
      simp only [if_neg hid, if_neg (by omega : ¬ ¬ due.getD now ≤ now),
        if_neg (by simp [abs_nonneg] : ¬ |convertedAmount| < 0)]
      exact ⟨_, rfl⟩
    · simp only [if_neg hc]
      rw [insertTxn]
      simp only [if_neg (Ne.symm hid), if_neg (by omega : ¬ ¬ due.getD now ≤ now),
        if_neg (by simp [abs_nonneg] : ¬ |convertedAmount| < 0)]
      exact ⟨_, rfl⟩

/-- Concrete instantiation of `amount_validation_contrast`: an order
with amount 0 is rejected as a ValidationError while one with amount
1.000 is not; `pay` succeeds with amount -12.300. -/
theorem amount_validation_contrast_witness :
    ((∃ m, create_order "test1" ⟨[⟨1, "test1", 0⟩, ⟨2, "test2", 0⟩], [], [], [], [], [], 1, 1, 1, 1⟩
        "o1" "test2" 0 "RRULE:FREQ=DAILY" 0 none = .error (.valueError m)) ↔ (0 : Int) ≤ 0)
    ∧ ∃ st', pay "test1" 0 ⟨[⟨1, "test1", 0⟩, ⟨2, "test2", 0⟩], [], [], [], [], [], 1, 1, 1, 1⟩
        "test2" (-12300) (some 0) none none none none [] (fun _ => true) = .ok (st', none) :=
  ⟨(amount_validation_contrast.1 "test1"
      ⟨[⟨1, "test1", 0⟩, ⟨2, "test2", 0⟩], [], [], [], [], [], 1, 1, 1, 1⟩
      "o1" "test2" 0 "RRULE:FREQ=DAILY" 0 none "o1" "test2" (by decide) (by decide)),
   amount_validation_contrast.2 "test1" 0
      ⟨[⟨1, "test1", 0⟩, ⟨2, "test2", 0⟩], [], [], [], [], [], 1, 1, 1, 1⟩
      "test2" (-12300) (some 0) none (fun _ => true) "test2"
      ⟨1, "test1", 0⟩ ⟨2, "test2", 0⟩ (by decide) (by decide) (by decide)
      (by decide) (by decide) (by decide)⟩

/-- C9 (code evaluated at the failing input): a fully successful `pay`
call creates the transaction but returns `None` — the method body in
mpay.py has no `return` statement — while the CLI handler (cli.py line
114) and the tests (test_add_tag) bind its result as the new
transaction id. -/
theorem pay_returns_none_not_id :
    pay "test1" 0 ⟨[⟨1, "test1", 0⟩, ⟨2, "test2", 0⟩], [], [], [], [], [], 1, 1, 1, 1⟩
        "test2" 12300 (some 0) none none none none [] (fun _ => true)
      = .ok (⟨[⟨1, "test1", -12300⟩, ⟨2, "test2", 12300⟩], [], [], [],
          [⟨1, 1, 2, 1, 12300, none, none, none, none, none, 0, 0, []⟩], [],
          2, 1, 1, 1⟩, none)
    ∧ (∀ st' : DBState,
        pay "test1" 0 ⟨[⟨1, "test1", 0⟩, ⟨2, "test2", 0⟩], [], [], [], [], [], 1, 1, 1, 1⟩
          "test2" 12300 (some 0) none none none none [] (fun _ => true)
        ≠ .ok (st', some 1)) := by
  constructor
  · decide
  · intro st' hc
    have h1 :
        pay "test1" 0 ⟨[⟨1, "test1", 0⟩, ⟨2, "test2", 0⟩], [], [], [], [], [], 1, 1, 1, 1⟩
          "test2" 12300 (some 0) none none none none [] (fun _ => true)
        = .ok (⟨[⟨1, "test1", -12300⟩, ⟨2, "test2", 12300⟩], [], [], [],
            [⟨1, 1, 2, 1, 12300, none, none, none, none, none, 0, 0, []⟩], [],
            2, 1, 1, 1⟩, none) := by decide
    rw [h1] at hc
    cases hc

theorem occList_le_now (after : Int → Option Int) (now : Int) :
    ∀ d, ∀ x ∈ occList after now d, x ≤ now := by
  intro d
  induction d using occList.induct after now with
  | case1 x d h ih =>
    rw [occList]
    simp only [dif_pos h]
    intro y hy
    rcases List.mem_cons.mp hy with rfl | hy'
    · exact h
    · match hafter : after x with
      | none => rw [hafter] at hy'; cases hy'
      | some dnew =>
        rw [hafter] at hy'
        dsimp only [] at hy'
        by_cases hgt : x < dnew
        · rw [dif_pos hgt] at hy'
          exact ih dnew hgt y hy'
        · rw [dif_neg hgt] at hy'
          cases hy'
  | case2 x d h =>
    rw [occList]
    simp only [dif_neg h]
    intro y hy
    cases hy

theorem executeOrderLoop_ok (after : Int → Option Int) (o : Order) (now : Int)
    (hmono : ∀ x y, after x = some y → x < y) :
    ∀ d tid acc, ∃ ts fin,
      executeOrderLoop after o now d tid acc = .ok (acc ++ ts, fin) ∧
      ts.map Txn.dtDue = occList after now d ∧
      (∀ t ∈ ts, orderTxnShape o now t) ∧
      (fin = none ∨ ∃ v, fin = some v ∧ d ≤ v ∧ now < v) := by
  intro d tid acc
  induction d, tid, acc using executeOrderLoop.induct after o now with
  | case1 d tid acc h hnone =>
    refine ⟨[mkOrderTxn o tid d now], none, ?_, ?_, ?_, Or.inl rfl⟩
    · rw [executeOrderLoop]
      simp only [dif_pos h]
      split
      · rfl
      · rename_i dnew hnew'
        rw [hnone] at hnew'
        cases hnew'
    · rw [occList]
      simp only [dif_pos h, hnone]
      rfl
    · intro t ht
      rcases List.mem_cons.mp ht with rfl | ht'
      · exact ⟨rfl, rfl, rfl, rfl, rfl, rfl, rfl, rfl, rfl, rfl, rfl⟩
      · cases ht'
  | case2 d tid acc h dnew hnew hgt ih =>
    obtain ⟨ts', fin', hloop, hdue, hshape, hfin⟩ := ih
    refine ⟨mkOrderTxn o tid d now :: ts', fin', ?_, ?_, ?_, ?_⟩
    · rw [executeOrderLoop]
      simp only [dif_pos h]
      split
      · rename_i hnew'
        rw [hnew] at hnew'
        cases hnew'
      · rename_i dnew' hnew'
        rw [hnew] at hnew'
        cases hnew'
        rw [dif_pos hgt, hloop, List.append_assoc]
        rfl
    · rw [occList]
      simp only [dif_pos h, hnew, dif_pos hgt, List.map_cons, hdue]
      rfl
    · intro t ht
      rcases List.mem_cons.mp ht with rfl | ht'
      · exact ⟨rfl, rfl, rfl, rfl, rfl, rfl, rfl, rfl, rfl, rfl, rfl⟩
      · exact hshape t ht'
    · rcases hfin with hn | ⟨v, hv, hle, hnow⟩
      · exact Or.inl hn
      · exact Or.inr ⟨v, hv, by omega, hnow⟩
  | case3 d tid acc h dnew hnew hgt =>
    exact absurd (hmono d dnew hnew) hgt
  | case4 d tid acc h =>
    refine ⟨[], some d, ?_, ?_, ?_, Or.inr ⟨d, rfl, le_refl d, by omega⟩⟩
    · rw [executeOrderLoop]
      simp only [dif_neg h]
      rw [List.append_nil]
    · rw [occList]
      simp only [dif_neg h]
      rfl
    · intro t ht
      cases ht

theorem executeOrderLoop_assert {after : Int → Option Int} {o : Order}
    {now d : Int} {dnew : Int} (tid : Nat) (acc : List Txn)
    (h : d ≤ now) (hnew : after d = some dnew) (hle : dnew ≤ d) :
    executeOrderLoop after o now d tid acc
      = .error (.assertionError "new_utc is None or new_utc > prev_utc") := by
  rw [executeOrderLoop]
  simp only [dif_pos h]
  split
  · rename_i hnew'
    rw [hnew] at hnew'
    cases hnew'
  · rename_i dnew' hnew'
    rw [hnew] at hnew'
    cases hnew'
    rw [dif_neg (by omega : ¬ d < dnew)]

theorem insertTxns_ok :
    ∀ (ts : List Txn) (st : DBState),
      (∀ t ∈ ts, t.userFrom ≠ t.userTo ∧ t.dtDue ≤ t.dtCreated ∧ 0 ≤ t.amount ∧
        t.originalAmount = none ∧ t.originalCurrency = none) →
      ∃ st', insertTxns st ts = .ok st' ∧ st'.txns = st.txns ++ ts ∧
        st'.orders = st.orders ∧ st'.tags = st.tags ∧ st'.agents = st.agents ∧
        st'.currencies = st.currencies := by
  intro ts
  induction ts with
  | nil =>
    intro st _
    exact ⟨st, rfl, by simp, rfl, rfl, rfl, rfl⟩
  | cons t rest ih =>
    intro st hok
    obtain ⟨hne, hdue, hamt, hoa, hoc⟩ := hok t (by simp)
    have hstep : insertTxn st t = .ok { st with
        txns := st.txns ++ [t], users := insertTrigger st.users t,
        nextTxnId := st.nextTxnId + 1 } := by
      rw [insertTxn]
      rw [if_neg hne, if_neg (by omega : ¬ ¬ t.dtDue ≤ t.dtCreated),
        if_neg (by omega : ¬ t.amount < 0), if_neg (by rw [hoa]; simp),
        if_neg (by rw [hoa, hoc]; simp)]
    obtain ⟨st', hrun, htx, horders, htags, hagents, hcur⟩ :=
      ih { st with
           txns := st.txns ++ [t],
           users := insertTrigger st.users t,
           nextTxnId := st.nextTxnId + 1 }
        (fun u hu => hok u (by simp [hu]))
    refine ⟨st', ?_, ?_, horders, htags, hagents, hcur⟩
    · rw [insertTxns, hstep]
      exact hrun
    · rw [htx]
      simp

theorem executeOrder_none {after : String → Int → Option Int} {st : DBState}
    {o : Order} {now : Int} (h : o.dtNext = none) :
    executeOrder after st o now = .ok st := by
  rw [executeOrder, h]

theorem executeOrder_ok {after : String → Int → Option Int} {st : DBState}
    {o : Order} {now d : Int}
    (hd : o.dtNext = some d)
    (hmono : ∀ x y, after o.rruleStr x = some y → x < y)
    (hamt : 0 ≤ o.amount) (hneq : o.userFrom ≠ o.userTo) :
    ∃ ts fin st',
      executeOrder after st o now = .ok st' ∧
      st'.txns = st.txns ++ ts ∧
      ts.map Txn.dtDue = occList (after o.rruleStr) now d ∧
      (∀ t ∈ ts, orderTxnShape o now t) ∧
      st'.orders = st.orders.map
        (fun p => if p.id = o.id then { p with dtNext := fin } else p) ∧
      (fin = none ∨ ∃ v, fin = some v ∧ d ≤ v ∧ now < v) ∧
      st'.tags = st.tags ∧ st'.agents = st.agents ∧
      st'.currencies = st.currencies := by
  obtain ⟨ts, fin, hloop, hdue, hshape, hfin⟩ :=
    executeOrderLoop_ok (after o.rruleStr) o now hmono d st.nextTxnId []
  have hconstraints : ∀ t ∈ ts, t.userFrom ≠ t.userTo ∧ t.dtDue ≤ t.dtCreated ∧
      0 ≤ t.amount ∧ t.originalAmount = none ∧ t.originalCurrency = none := by
    intro t ht
    obtain ⟨h1, h2, h3, _, _, h6, h7, h8, _, _, _⟩ := hshape t ht
    have hdle : t.dtDue ≤ now := by
      apply occList_le_now (after o.rruleStr) now d
      rw [← hdue]
      exact List.mem_map_of_mem Txn.dtDue ht
    refine ⟨by rw [h1, h2]; exact hneq, by omega, by omega, h7, h8⟩
  obtain ⟨st', hrun, htx, horders, htags, hagents, hcur⟩ := insertTxns_ok ts st hconstraints
  refine ⟨ts, fin,
    { st' with
      orders := st'.orders.map
        (fun p => if p.id = o.id then { p with dtNext := fin } else p) },
    ?_, htx, hdue, hshape, ?_, hfin, htags, hagents, hcur⟩
  · rw [executeOrder, hd]
    dsimp only []
    rw [hloop]
    dsimp only []
    rw [List.nil_append, hrun]
  · show st'.orders.map _ = _
    rw [horders]

theorem executeOrdersGo_ok {after : String → Int → Option Int} {now : Int} :
    ∀ (sel : List Order) (st : DBState),
      (∀ o ∈ sel, (∃ d, o.dtNext = some d ∧ d < now) ∧
        (∀ x y, after o.rruleStr x = some y → x < y) ∧ 0 ≤ o.amount ∧
        o.userFrom ≠ o.userTo) →
      ∃ st' groups,
        executeOrdersGo after now sel st = .ok st' ∧
        st'.txns = st.txns ++ groups.flatten ∧
        List.Forall₂ (fun (o : Order) (ts : List Txn) =>
          ∃ d, o.dtNext = some d ∧ d < now ∧
            ts.map Txn.dtDue = occList (after o.rruleStr) now d ∧
            ∀ t ∈ ts, orderTxnShape o now t) sel groups ∧
        (∀ p ∈ st.orders, (∀ q ∈ sel, p.id ≠ q.id) → p ∈ st'.orders) ∧
        st'.orders.length = st.orders.length := by
  intro sel
  induction sel with
  | nil =>
    intro st _
    exact ⟨st, [], rfl, by simp, List.Forall₂.nil, fun p hp _ => hp, rfl⟩
  | cons o rest ih =>
    intro st hsel
    obtain ⟨⟨d, hd, hdlt⟩, hmono, hamt, hneq⟩ := hsel o (by simp)
    obtain ⟨ts, fin, st₁, hrun₁, htx₁, hdue₁, hshape₁, horders₁, _, htags₁,
      hagents₁, hcur₁⟩ := @executeOrder_ok after st o now d hd hmono hamt hneq
    obtain ⟨st', groups, hrun, htx, hfa, hpres, hlen⟩ :=
      ih st₁ (fun q hq => hsel q (by simp [hq]))
    refine ⟨st', ts :: groups, ?_, ?_, ?_, ?_, ?_⟩
    · rw [executeOrdersGo, hrun₁]
      dsimp only []
      rw [hrun]
    · rw [htx, htx₁, List.flatten_cons, List.append_assoc]
    · exact List.Forall₂.cons ⟨d, hd, hdlt, hdue₁, hshape₁⟩ hfa
    · intro p hp hq
      apply hpres
      · rw [horders₁]
        have : (if p.id = o.id then { p with dtNext := fin } else p) = p := by
          rw [if_neg (hq o (by simp))]
        rw [← this]
        exact List.mem_map_of_mem _ hp
      · intro q hqr
        exact hq q (by simp [hqr])
    · rw [hlen, horders₁, List.length_map]

/-- C3: `execute_orders` selects exactly the orders whose cursor is
strictly before `now` (an order due exactly at `now`, or disabled, is
left untouched and gets no transactions), and each selected order
contributes one transaction per occurrence of the spec's
while-cursor-non-null-and-≤-now schedule, every created transaction
carrying the order's endpoints, amount, the occurrence as its due date,
the standing-order back-reference, and `user_created = user_from`. -/
theorem execute_orders_spec (after : String → Int → Option Int) (st : DBState)
    (now : Int)
    (hmono : ∀ o ∈ st.orders, ∀ x y, after o.rruleStr x = some y → x < y)
    (hamt : ∀ o ∈ st.orders, 0 ≤ o.amount)
    (hneq : ∀ o ∈ st.orders, o.userFrom ≠ o.userTo)
    (hids : (st.orders.map Order.id).Nodup) :
    (∀ o, orderDue now o = true ↔ ∃ d, o.dtNext = some d ∧ d < now)
    ∧ ∃ st' groups,
      executeOrders after st now = .ok st' ∧
      st'.txns = st.txns ++ groups.flatten ∧
      List.Forall₂ (fun (o : Order) (ts : List Txn) =>
        ∃ d, o.dtNext = some d ∧ d < now ∧
          ts.map Txn.dtDue = occList (after o.rruleStr) now d ∧
          ∀ t ∈ ts, orderTxnShape o now t)
        (st.orders.filter (orderDue now)) groups ∧
      (∀ o ∈ st.orders, (∀ d, o.dtNext = some d → ¬ d < now) → o ∈ st'.orders) ∧
      st'.orders.length = st.orders.length := by
  have hdue_iff : ∀ o : Order, orderDue now o = true ↔ ∃ d, o.dtNext = some d ∧ d < now := by
    intro o
    rw [orderDue]
    match hnext : o.dtNext with
    | some d => simp
    | none => simp
  refine ⟨hdue_iff, ?_⟩
  have hsel : ∀ q ∈ st.orders.filter (orderDue now),
      (∃ d, q.dtNext = some d ∧ d < now) ∧
      (∀ x y, after q.rruleStr x = some y → x < y) ∧ 0 ≤ q.amount ∧
      q.userFrom ≠ q.userTo := by
    intro q hq
    have hqmem := List.mem_of_mem_filter hq
    exact ⟨(hdue_iff q).mp (List.of_mem_filter hq), hmono q hqmem, hamt q hqmem,
      hneq q hqmem⟩
  obtain ⟨st', groups, hrun, htx, hfa, hpres, hlen⟩ :=
    @executeOrdersGo_ok after now
      (st.orders.filter (orderDue now)) st hsel
  refine ⟨st', groups, hrun, htx, hfa, ?_, hlen⟩
  intro o ho hnot
  apply hpres o ho
  intro q hq
  have hqmem := List.mem_of_mem_filter hq
  have hqdue := (hdue_iff q).mp (List.of_mem_filter hq)
  intro heq
  have hoq : o = q := by
    have hinj := List.inj_on_of_nodup_map hids
    exact hinj ho hqmem heq
  obtain ⟨dq, hdq, hdqlt⟩ := hqdue
  exact hnot dq (hoq ▸ hdq) hdqlt

/-- Concrete instantiation of `execute_orders_spec`: with a daily-style
rule (next occurrence d+1 up to 4, then exhausted), one order whose
cursor is 0 and `now = 3`: the strictness boundary holds, and the run
succeeds producing the occurrence schedule 0,1,2,3. -/
theorem execute_orders_spec_witness :
    (∀ o, orderDue 3 o = true ↔ ∃ d, o.dtNext = some d ∧ d < 3)
    ∧ ∃ st' groups,
      executeOrders (fun _ d => if d < 5 then some (d + 1) else none)
        ⟨[], [], [], [], [],
          [⟨1, "order1", 1, 2, 1000, none, "RRULE:FREQ=DAILY", some 0⟩], 1, 1, 1, 2⟩ 3
        = .ok st' ∧
      st'.txns = [] ++ groups.flatten ∧
      List.Forall₂ (fun (o : Order) (ts : List Txn) =>
        ∃ d, o.dtNext = some d ∧ d < 3 ∧
          ts.map Txn.dtDue = occList ((fun _ d => if d < 5 then some (d + 1) else none) o.rruleStr) 3 d ∧
          ∀ t ∈ ts, orderTxnShape o 3 t)
        (List.filter (orderDue 3)
          [⟨1, "order1", 1, 2, 1000, none, "RRULE:FREQ=DAILY", some 0⟩]) groups ∧
      (∀ o ∈ [(⟨1, "order1", 1, 2, 1000, none, "RRULE:FREQ=DAILY", some 0⟩ : Order)],
        (∀ d, o.dtNext = some d → ¬ d < 3) → o ∈ st'.orders) ∧
      st'.orders.length = 1 :=
  execute_orders_spec (fun _ d => if d < 5 then some (d + 1) else none)
    ⟨[], [], [], [], [],
      [⟨1, "order1", 1, 2, 1000, none, "RRULE:FREQ=DAILY", some 0⟩], 1, 1, 1, 2⟩ 3
    (by
      intro o ho x y h
      simp only [] at h
      by_cases hx : x < 5
      · rw [if_pos hx] at h
        cases h
        omega
      · rw [if_neg hx] at h
        cases h)
    (by decide) (by decide) (by decide)

/-- C4: the standing-order cursor evolves monotonically and null is
terminal.  (1) Feeding the recurrence rule the current cursor and
getting a non-null instant that is not strictly later is a fatal
`AssertionError`, not a user error; (2) under any strictly-monotone
rule a successful catch-up run leaves the cursor null or strictly
beyond both its previous value and `now`; (3) executing an order whose
cursor is null does nothing; (4) `disable_order` never sets any order's
cursor from null back to non-null — each row's cursor is either
unchanged or null in the result. -/
theorem dt_next_monotone_and_null_terminal :
    (∀ (after : Int → Option Int) (o : Order) (now d dnew : Int) (tid : Nat)
        (acc : List Txn),
      d ≤ now → after d = some dnew → dnew ≤ d →
      executeOrderLoop after o now d tid acc
        = .error (.assertionError "new_utc is None or new_utc > prev_utc"))
    ∧ (∀ (after : Int → Option Int) (o : Order) (now d : Int) (tid : Nat)
        (acc out : List Txn) (fin : Option Int),
      (∀ x y, after x = some y → x < y) →
      executeOrderLoop after o now d tid acc = .ok (out, fin) →
      fin = none ∨ ∃ v, fin = some v ∧ d ≤ v ∧ now < v)
    ∧ (∀ (after : String → Int → Option Int) (st : DBState) (o : Order) (now : Int),
      o.dtNext = none → executeOrder after st o now = .ok st)
    ∧ (∀ (cfgUser : String) (st : DBState) (orderName : String)
        (confirm : String → Bool) (b : Bool) (st' : DBState),
      disable_order cfgUser st orderName confirm = .ok (b, st') →
      st'.orders.length = st.orders.length ∧
      ∀ (i : Nat) (h1 : i < st'.orders.length) (h2 : i < st.orders.length),
        (st'.orders[i]).dtNext = (st.orders[i]).dtNext ∨
          (st'.orders[i]).dtNext = none) := by
  refine ⟨?_, ?_, ?_, ?_⟩
  · intro after o now d dnew tid acc h hnew hle
    exact executeOrderLoop_assert tid acc h hnew hle
  · intro after o now d tid acc out fin hmono hok
    obtain ⟨ts, fin', hloop, _, _, hfin⟩ := executeOrderLoop_ok after o now hmono d tid acc
    rw [hok] at hloop
    have hfineq : fin = fin' := by
      simpa using congrArg Prod.snd (Except.ok.inj hloop)
    rw [hfineq]
    exact hfin
  · intro after st o now h
    exact executeOrder_none h
  · intro cfgUser st orderName confirm b st' hok
    rw [disable_order] at hok
    split at hok
    · cases hok
    · split at hok
      · cases hok
      · split at hok
        · cases hok
        · cases hok
        · rename_i order horder
          split at hok
          · cases hok
            exact ⟨rfl, fun i h1 h2 => Or.inl rfl⟩
          · split at hok
            · cases hok
              exact ⟨rfl, fun i h1 h2 => Or.inl rfl⟩
            · cases hok
              refine ⟨by simp, ?_⟩
              intro i h1 h2
              have hmap : (st.orders.map
                  (fun o => if o.id = order.id then { o with dtNext := none } else o))[i]
                  = (fun o => if o.id = order.id then { o with dtNext := none } else o)
                    (st.orders[i]) := List.getElem_map _
              dsimp only []
              rw [hmap]
              dsimp only []
              by_cases hid : (st.orders[i]).id = order.id
              · rw [if_pos hid]
                exact Or.inr rfl
              · rw [if_neg hid]
                exact Or.inl rfl

/-- Concrete instantiation of `dt_next_monotone_and_null_terminal`: a
rule that repeats instant 0 trips the assertion; a successful run from
cursor 5 with `now = 3` leaves the cursor at 5 (> now); executing a
disabled order changes nothing; disabling an already-null order keeps
every cursor unchanged-or-null. -/
theorem dt_next_monotone_and_null_terminal_witness :
    executeOrderLoop (fun _ => some 0) ⟨1, "o", 1, 2, 1000, none, "R", some 0⟩ 10 0 1 []
      = .error (.assertionError "new_utc is None or new_utc > prev_utc")
    ∧ ((some 5 : Option Int) = none ∨ ∃ v, (some 5 : Option Int) = some v ∧ (5 : Int) ≤ v ∧ (3 : Int) < v)
    ∧ executeOrder (fun _ _ => none)
        ⟨[], [], [], [], [], [⟨1, "o", 1, 2, 1000, none, "R", none⟩], 1, 1, 1, 2⟩
        ⟨1, "o", 1, 2, 1000, none, "R", none⟩ 3
      = .ok ⟨[], [], [], [], [], [⟨1, "o", 1, 2, 1000, none, "R", none⟩], 1, 1, 1, 2⟩
    ∧ (⟨[⟨1, "u1", 0⟩], [], [], [], [], [⟨1, "o", 1, 2, 1000, none, "R", none⟩], 1, 1, 1, 2⟩ : DBState).orders.length
        = (⟨[⟨1, "u1", 0⟩], [], [], [], [], [⟨1, "o", 1, 2, 1000, none, "R", none⟩], 1, 1, 1, 2⟩ : DBState).orders.length :=
  ⟨dt_next_monotone_and_null_terminal.1 (fun _ => some 0)
      ⟨1, "o", 1, 2, 1000, none, "R", some 0⟩ 10 0 0 1 [] (by decide) rfl (by decide),
   dt_next_monotone_and_null_terminal.2.1 (fun x => if x < 3 then some 5 else none)
      ⟨1, "o", 1, 2, 1000, none, "R", some 0⟩ 3 5 1 [] [] (some 5)
      (by
        intro x y h
        simp only [] at h
        by_cases hx : x < 3
        · rw [if_pos hx] at h
          cases h
          omega
        · rw [if_neg hx] at h
          cases h)
      (by
        rw [executeOrderLoop]
        rw [dif_neg (by omega : ¬ (5 : Int) ≤ 3)]),
   dt_next_monotone_and_null_terminal.2.2.1 (fun _ _ => none)
      ⟨[], [], [], [], [], [⟨1, "o", 1, 2, 1000, none, "R", none⟩], 1, 1, 1, 2⟩
      ⟨1, "o", 1, 2, 1000, none, "R", none⟩ 3 rfl,
   (dt_next_monotone_and_null_terminal.2.2.2 "u1"
      ⟨[⟨1, "u1", 0⟩], [], [], [], [], [⟨1, "o", 1, 2, 1000, none, "R", none⟩], 1, 1, 1, 2⟩
      "o" (fun _ => true) true
      ⟨[⟨1, "u1", 0⟩], [], [], [], [], [⟨1, "o", 1, 2, 1000, none, "R", none⟩], 1, 1, 1, 2⟩
      (by decide)).1⟩

theorem find?_append_some {α : Type} {p : α → Bool} {l₁ l₂ : List α} {x : α}
    (h : l₁.find? p = some x) : (l₁ ++ l₂).find? p = some x := by
  rw [List.find?_append, h]
  rfl

theorem find?_append_none {α : Type} {p : α → Bool} {l₁ l₂ : List α}
    (h : l₁.find? p = none) : (l₁ ++ l₂).find? p = l₂.find? p := by
  rw [List.find?_append, h]
  rfl

theorem resolve_mono (extra : List Tag) :
    ∀ (path : List String) (parent : Option Nat) (tags : List Tag) (t : Tag),
      resolveHierarchicalTag tags path parent = some t →
      resolveHierarchicalTag (tags ++ extra) path parent = some t := by
  intro path
  induction path with
  | nil => intro parent tags t h; cases h
  | cons s tail ih =>
    intro parent tags t h
    match tail with
    | [] =>
      rw [resolveHierarchicalTag] at h ⊢
      exact find?_append_some h
    | s' :: rest =>
      rw [resolveHierarchicalTag] at h ⊢
      match hf : tags.find? (tagMatches s parent) with
      | none => rw [hf] at h; cases h
      | some cur =>
        rw [hf] at h
        rw [find?_append_some hf]
        exact ih (some cur.id) tags t h

theorem mem_addTagIds_of_mem :
    ∀ (is cur : List Nat) (x : Nat), x ∈ cur → x ∈ addTagIds cur is := by
  intro is
  induction is with
  | nil => intro cur x hx; exact hx
  | cons i rest ih =>
    intro cur x hx
    rw [addTagIds]
    apply ih
    by_cases hi : i ∈ cur
    · rw [if_pos hi]; exact hx
    · rw [if_neg hi]; exact List.mem_append_left _ hx

theorem mem_addTagIds :
    ∀ (is cur : List Nat) (x : Nat), x ∈ is → x ∈ addTagIds cur is := by
  intro is
  induction is with
  | nil => intro cur x hx; cases hx
  | cons i rest ih =>
    intro cur x hx
    rw [addTagIds]
    rcases List.mem_cons.mp hx with rfl | hx'
    · apply mem_addTagIds_of_mem
      by_cases hi : x ∈ cur
      · rw [if_pos hi]; exact hi
      · rw [if_neg hi]; exact List.mem_append_right _ (by simp)
    · exact ih _ x hx'

theorem addTagIds_eq_self :
    ∀ (is cur : List Nat), (∀ i ∈ is, i ∈ cur) → addTagIds cur is = cur := by
  intro is
  induction is with
  | nil => intro cur _; rfl
  | cons i rest ih =>
    intro cur hsub
    rw [addTagIds, if_pos (hsub i (by simp))]
    exact ih cur (fun j hj => hsub j (by simp [hj]))

theorem addTagIds_idem (is cur : List Nat) :
    addTagIds (addTagIds cur is) is = addTagIds cur is :=
  addTagIds_eq_self is _ (fun i hi => mem_addTagIds is cur i hi)

theorem createTag_step_wf {st : DBState} {s : String} {parent : Option Nat}
    (hwf : TagsWF st.tags) (hfresh : TagsFresh st)
    (hp : ∀ p, parent = some p → p < st.nextTagId)
    (hnone : st.tags.find? (tagMatches s parent) = none) :
    TagsWF (st.tags ++ [⟨st.nextTagId, s, parent⟩]) ∧
      TagsFresh { st with
        tags := st.tags ++ [⟨st.nextTagId, s, parent⟩],
        nextTagId := st.nextTagId + 1 } := by
  have hnomatch := List.find?_eq_none.mp hnone
  constructor
  · constructor
    · rw [List.map_append]
      apply List.Nodup.append hwf.1 (by simp)
      intro x hx hx'
      simp only [List.map_cons, List.map_nil, List.mem_singleton] at hx'
      obtain ⟨u, hu, hux⟩ := List.mem_map.mp hx
      have := (hfresh u hu).1
      omega
    · rw [List.pairwise_append]
      refine ⟨hwf.2, by simp, ?_⟩
      intro a ha b hb
      simp only [List.mem_singleton] at hb
      subst hb
      intro hcon
      have := hnomatch a ha
      rw [tagMatches] at this
      simp only [decide_eq_true_eq] at this
      exact this ⟨hcon.1, hcon.2⟩
  · intro u hu
    have hu' : u ∈ st.tags ∨ u = ⟨st.nextTagId, s, parent⟩ := by
      simpa using hu
    constructor
    · show u.id < st.nextTagId + 1
      rcases hu' with hu'' | rfl
      · have := (hfresh u hu'').1
        omega
      · dsimp only []
        omega
    · intro p hp'
      show p < st.nextTagId + 1
      rcases hu' with hu'' | rfl
      · have := (hfresh u hu'').2 p hp'
        omega
      · dsimp only [] at hp'
        have := hp p hp'
        omega

theorem createOrGetTagGo_spec :
    ∀ (rest : List String) (s : String) (parent : Option Nat) (st st' : DBState)
      (t : Tag),
      TagsWF st.tags → TagsFresh st →
      (∀ p, parent = some p → p < st.nextTagId) →
      createOrGetTagGo st parent s rest = (st', t) →
      (∃ new, st'.tags = st.tags ++ new) ∧ st'.txns = st.txns ∧
        st.nextTagId ≤ st'.nextTagId ∧ TagsWF st'.tags ∧ TagsFresh st' ∧
        resolveHierarchicalTag st'.tags (s :: rest) parent = some t := by
  intro rest
  induction rest with
  | nil =>
    intro s parent st st' t hwf hfresh hp hrun
    rw [createOrGetTagGo] at hrun
    split at hrun
    · rename_i t0 hfind
      cases hrun
      refine ⟨⟨[], by simp⟩, rfl, le_refl _, hwf, hfresh, ?_⟩
      rw [resolveHierarchicalTag]
      exact hfind
    · rename_i hfind
      cases hrun
      obtain ⟨hwf', hfresh'⟩ := createTag_step_wf hwf hfresh hp hfind
      refine ⟨⟨([⟨st.nextTagId, s, parent⟩] : List Tag), rfl⟩, rfl, ?_, hwf',
        hfresh', ?_⟩
      · show st.nextTagId ≤ st.nextTagId + 1
        omega
      · rw [resolveHierarchicalTag]
        show (st.tags ++ ([⟨st.nextTagId, s, parent⟩] : List Tag)).find?
          (tagMatches s parent) = _
        rw [find?_append_none hfind]
        simp [tagMatches]
  | cons s' rest' ih =>
    intro s parent st st' t hwf hfresh hp hrun
    rw [createOrGetTagGo] at hrun
    split at hrun
    · rename_i t0 hfind
      have hp' : ∀ p, some t0.id = some p → p < st.nextTagId := by
        intro p hpq
        cases hpq
        exact (hfresh t0 (List.mem_of_find?_eq_some hfind)).1
      obtain ⟨⟨new, hnew⟩, htxns, hnext, hwf', hfresh', hres⟩ :=
        ih s' (some t0.id) st st' t hwf hfresh hp' hrun
      refine ⟨⟨new, hnew⟩, htxns, hnext, hwf', hfresh', ?_⟩
      rw [resolveHierarchicalTag, hnew, find?_append_some hfind]
      dsimp only []
      rw [← hnew]
      exact hres
    · rename_i hfind
      obtain ⟨hwf₁, hfresh₁⟩ := createTag_step_wf hwf hfresh hp hfind
      have hp' : ∀ p, some st.nextTagId = some p →
          p < ({ st with
            tags := st.tags ++ [⟨st.nextTagId, s, parent⟩],
            nextTagId := st.nextTagId + 1 } : DBState).nextTagId := by
        intro p hpq
        cases hpq
        show st.nextTagId < st.nextTagId + 1
        omega
      obtain ⟨⟨new, hnew⟩, htxns, hnext, hwf', hfresh', hres⟩ :=
        ih s' (some st.nextTagId)
          { st with
            tags := st.tags ++ [⟨st.nextTagId, s, parent⟩],
            nextTagId := st.nextTagId + 1 } st' t hwf₁ hfresh₁ hp' hrun
      have hnew' : st'.tags = st.tags ++ ([⟨st.nextTagId, s, parent⟩] ++ new) := by
        rw [← List.append_assoc]
        exact hnew
      refine ⟨⟨([⟨st.nextTagId, s, parent⟩] : List Tag) ++ new, hnew'⟩, htxns, ?_,
        hwf', hfresh', ?_⟩
      · have h2 : st.nextTagId + 1 ≤ st'.nextTagId := hnext
        omega
      have hone : (([⟨st.nextTagId, s, parent⟩] : List Tag) ++ new).find?
          (tagMatches s parent) = some (⟨st.nextTagId, s, parent⟩ : Tag) := by
        apply find?_append_some
        simp [tagMatches]
      rw [resolveHierarchicalTag, hnew', find?_append_none hfind, hone]
      dsimp only []
      rw [← hnew']
      exact hres

theorem map_eq_self_of {α : Type} {l : List α} {f : α → α}
    (h : ∀ x ∈ l, f x = x) : l.map f = l := by
  induction l with
  | nil => rfl
  | cons a rest ih =>
    rw [List.map_cons, h a (by simp), ih (fun x hx => h x (by simp [hx]))]

theorem addResolve_spec {confirm : String → Bool} :
    ∀ (names : List String) (st st' : DBState) (ts : List Tag),
      TagsWF st.tags → TagsFresh st →
      addResolve confirm names st = .ok (st', ts) →
      (∃ new, st'.tags = st.tags ++ new) ∧ st'.txns = st.txns ∧
        TagsWF st'.tags ∧ TagsFresh st' ∧
        List.Forall₂ (fun n t =>
          resolveHierarchicalTag st'.tags (pySplit (pyStrip n)) none = some t)
          names ts := by
  intro names
  induction names with
  | nil =>
    intro st st' ts hwf hfresh hrun
    rw [addResolve] at hrun
    cases hrun
    exact ⟨⟨[], by simp⟩, rfl, hwf, hfresh, List.Forall₂.nil⟩
  | cons n rest ih =>
    intro st st' ts hwf hfresh hrun
    rw [addResolve] at hrun
    split at hrun
    · rename_i t0 hres0
      split at hrun
      · rename_i st₁ ts₁ hrec
        cases hrun
        obtain ⟨⟨new, hnew⟩, htxns, hwf', hfresh', hfa⟩ :=
          ih st st' ts₁ hwf hfresh hrec
        refine ⟨⟨new, hnew⟩, htxns, hwf', hfresh', List.Forall₂.cons ?_ hfa⟩
        rw [hnew]
        exact resolve_mono new _ none st.tags t0 hres0
      · cases hrun
    · rename_i hres0
      split at hrun
      · split at hrun
        · cases hrun
        · rename_i s segs hsplit
          split at hrun
          · rename_i st₁ ts₁ hrec
            cases hrun
            obtain ⟨⟨newC, hnewC⟩, htxnsC, hnextC, hwfC, hfreshC, hresC⟩ :=
              createOrGetTagGo_spec segs s none st
                (createOrGetTagGo st none s segs).1
                (createOrGetTagGo st none s segs).2
                hwf hfresh (by intro p hp; cases hp) rfl
            obtain ⟨⟨new, hnew⟩, htxns, hwf', hfresh', hfa⟩ :=
              ih _ st' ts₁ hwfC hfreshC hrec
            refine ⟨⟨newC ++ new, by rw [hnew, hnewC, List.append_assoc]⟩,
              htxns.trans htxnsC, hwf', hfresh', List.Forall₂.cons ?_ hfa⟩
            rw [hsplit, hnew]
            exact resolve_mono new _ none _ _ hresC
          · cases hrun
      · cases hrun

theorem addResolve_of_resolved {confirm : String → Bool} :
    ∀ (names : List String) (ts : List Tag) (st : DBState),
      List.Forall₂ (fun n t =>
        resolveHierarchicalTag st.tags (pySplit (pyStrip n)) none = some t)
        names ts →
      addResolve confirm names st = .ok (st, ts) := by
  intro names ts st hfa
  induction hfa with
  | nil => rfl
  | cons hht htail ih =>
    rw [addResolve, hht]
    dsimp only []
    rw [ih]

theorem addF_idem (txnIds I : List Nat) (u : Txn) :
    (fun t : Txn => if t.id ∈ txnIds then { t with tags := addTagIds t.tags I } else t)
      ((fun t : Txn => if t.id ∈ txnIds then { t with tags := addTagIds t.tags I } else t) u)
    = (fun t : Txn => if t.id ∈ txnIds then { t with tags := addTagIds t.tags I } else t) u := by
  by_cases hid : u.id ∈ txnIds
  · dsimp only []
    rw [if_pos hid]
    have hid2 : ({ u with tags := addTagIds u.tags I } : Txn).id ∈ txnIds := hid
    rw [if_pos hid2]
    dsimp only []
    rw [addTagIds_idem]
  · dsimp only []
    rw [if_neg hid, if_neg hid]

theorem removeF_idem (txnIds I : List Nat) (u : Txn) :
    (fun t : Txn => if t.id ∈ txnIds then
        { t with tags := t.tags.filter (fun i => decide (i ∉ I)) } else t)
      ((fun t : Txn => if t.id ∈ txnIds then
        { t with tags := t.tags.filter (fun i => decide (i ∉ I)) } else t) u)
    = (fun t : Txn => if t.id ∈ txnIds then
        { t with tags := t.tags.filter (fun i => decide (i ∉ I)) } else t) u := by
  by_cases hid : u.id ∈ txnIds
  · dsimp only []
    rw [if_pos hid]
    have hid2 : ({ u with tags := u.tags.filter (fun i => decide (i ∉ I)) } : Txn).id
        ∈ txnIds := hid
    rw [if_pos hid2]
    dsimp only []
    rw [List.filter_filter]
    simp only [Bool.and_self]
  · dsimp only []
    rw [if_neg hid, if_neg hid]

/-- C10 (modelled from the spec — `Mpay.add_tags`/`remove_tags` are
invoked by the CLI handlers and the tests but absent from
src/mpay/mpay.py): both operations are idempotent.  Running `add_tags`
(resp. `remove_tags`) a second time with the same arguments returns the
first call's state unchanged; adding already-present tags and removing
absent tags are exact no-ops rather than errors. -/
theorem add_remove_tags_idempotent (st : DBState) (txnIds : List Nat)
    (tagNames : List String) (confirm : String → Bool)
    (hwf : TagsWF st.tags) (hfresh : TagsFresh st) :
    (∀ st1, add_tags st txnIds tagNames confirm = .ok st1 →
      add_tags st1 txnIds tagNames confirm = .ok st1)
    ∧ (∀ st1, remove_tags st txnIds tagNames = .ok st1 →
      remove_tags st1 txnIds tagNames = .ok st1)
    ∧ (∀ ts, addResolve confirm tagNames st = .ok (st, ts) →
      (∀ t ∈ st.txns, t.id ∈ txnIds → ∀ i ∈ ts.map Tag.id, i ∈ t.tags) →
      add_tags st txnIds tagNames confirm = .ok st)
    ∧ (∀ ts, removeResolve tagNames st.tags = .ok ts →
      (∀ t ∈ st.txns, ∀ i ∈ ts.map Tag.id, i ∉ t.tags) →
      remove_tags st txnIds tagNames = .ok st) := by
  refine ⟨?_, ?_, ?_, ?_⟩
  · intro st1 hrun1
    rw [add_tags] at hrun1
    split at hrun1
    · cases hrun1
    · rename_i st' ts hres
      cases hrun1
      obtain ⟨⟨new, hnew⟩, htxns, hwf', hfresh', hfa⟩ :=
        addResolve_spec tagNames st st' ts hwf hfresh hres
      rw [add_tags]
      have hsecond : addResolve confirm tagNames
          { st' with
            txns := st'.txns.map (fun t =>
              if t.id ∈ txnIds then
                { t with tags := addTagIds t.tags (ts.map Tag.id) }
              else t) }
          = .ok ({ st' with
            txns := st'.txns.map (fun t =>
              if t.id ∈ txnIds then
                { t with tags := addTagIds t.tags (ts.map Tag.id) }
              else t) }, ts) :=
        addResolve_of_resolved tagNames ts _ hfa
      rw [hsecond]
      dsimp only []
      have hmap : (st'.txns.map (fun t =>
            if t.id ∈ txnIds then { t with tags := addTagIds t.tags (ts.map Tag.id) }
            else t)).map (fun t =>
            if t.id ∈ txnIds then { t with tags := addTagIds t.tags (ts.map Tag.id) }
            else t)
          = st'.txns.map (fun t =>
            if t.id ∈ txnIds then { t with tags := addTagIds t.tags (ts.map Tag.id) }
            else t) := by
        rw [List.map_map]
        exact List.map_congr_left
          (fun u _ => addF_idem txnIds (ts.map Tag.id) u)
      rw [hmap]
  · intro st1 hrun1
    rw [remove_tags] at hrun1
    split at hrun1
    · cases hrun1
    · rename_i ts hres
      cases hrun1
      rw [remove_tags]
      have hres1 : removeResolve tagNames
          ({ st with
             txns := st.txns.map (fun t =>
               if t.id ∈ txnIds then
                 { t with tags := t.tags.filter (fun i => decide (i ∉ ts.map Tag.id)) }
               else t) } : DBState).tags = .ok ts := hres
      rw [hres1]
      dsimp only []
      have hmap : (st.txns.map (fun t =>
            if t.id ∈ txnIds then
              { t with tags := t.tags.filter (fun i => decide (i ∉ ts.map Tag.id)) }
            else t)).map (fun t =>
            if t.id ∈ txnIds then
              { t with tags := t.tags.filter (fun i => decide (i ∉ ts.map Tag.id)) }
            else t)
          = st.txns.map (fun t =>
            if t.id ∈ txnIds then
              { t with tags := t.tags.filter (fun i => decide (i ∉ ts.map Tag.id)) }
            else t) := by
        rw [List.map_map]
        exact List.map_congr_left
          (fun u _ => removeF_idem txnIds (ts.map Tag.id) u)
      rw [hmap]
  · intro ts hres hsub
    rw [add_tags, hres]
    dsimp only []
    have hmap : st.txns.map (fun t =>
        if t.id ∈ txnIds then { t with tags := addTagIds t.tags (ts.map Tag.id) }
        else t) = st.txns := by
      apply map_eq_self_of
      intro t ht
      by_cases hid : t.id ∈ txnIds
      · rw [if_pos hid, addTagIds_eq_self _ _ (fun i hi => hsub t ht hid i hi)]
      · rw [if_neg hid]
    rw [hmap]
  · intro ts hres habs
    rw [remove_tags, hres]
    dsimp only []
    have hmap : st.txns.map (fun t =>
        if t.id ∈ txnIds then
          { t with tags := t.tags.filter (fun i => decide (i ∉ ts.map Tag.id)) }
        else t) = st.txns := by
      apply map_eq_self_of
      intro t ht
      by_cases hid : t.id ∈ txnIds
      · rw [if_pos hid, List.filter_eq_self.mpr]
        intro a ha
        rw [decide_eq_true_eq]
        intro hIa
        exact habs t ht a hIa ha
      · rw [if_neg hid]
    rw [hmap]

/-- Concrete instantiation of the tag idempotence theorem: on a ledger
with tags `a`, `b` and one transaction tagged `a`, re-adding a freshly
created tag `c`, re-removing `a`, adding the already-present `a` and
removing the unassociated `b` all leave their states unchanged. -/
theorem add_remove_tags_idempotent_witness :
    add_tags
      ⟨[⟨1,"u1",0⟩],[],[],[⟨1,"a",none⟩,⟨2,"b",none⟩,⟨3,"c",none⟩],
       [⟨1,1,1,1,0,none,none,none,none,none,0,0,[1,3]⟩],[],2,4,1,1⟩
      [1] ["c"] (fun _ => true)
      = .ok ⟨[⟨1,"u1",0⟩],[],[],[⟨1,"a",none⟩,⟨2,"b",none⟩,⟨3,"c",none⟩],
             [⟨1,1,1,1,0,none,none,none,none,none,0,0,[1,3]⟩],[],2,4,1,1⟩
    ∧ remove_tags
      ⟨[⟨1,"u1",0⟩],[],[],[⟨1,"a",none⟩,⟨2,"b",none⟩],
       [⟨1,1,1,1,0,none,none,none,none,none,0,0,[]⟩],[],2,3,1,1⟩
      [1] ["a"]
      = .ok ⟨[⟨1,"u1",0⟩],[],[],[⟨1,"a",none⟩,⟨2,"b",none⟩],
             [⟨1,1,1,1,0,none,none,none,none,none,0,0,[]⟩],[],2,3,1,1⟩
    ∧ add_tags
      ⟨[⟨1,"u1",0⟩],[],[],[⟨1,"a",none⟩,⟨2,"b",none⟩],
       [⟨1,1,1,1,0,none,none,none,none,none,0,0,[1]⟩],[],2,3,1,1⟩
      [1] ["a"] (fun _ => true)
      = .ok ⟨[⟨1,"u1",0⟩],[],[],[⟨1,"a",none⟩,⟨2,"b",none⟩],
             [⟨1,1,1,1,0,none,none,none,none,none,0,0,[1]⟩],[],2,3,1,1⟩
    ∧ remove_tags
      ⟨[⟨1,"u1",0⟩],[],[],[⟨1,"a",none⟩,⟨2,"b",none⟩],
       [⟨1,1,1,1,0,none,none,none,none,none,0,0,[1]⟩],[],2,3,1,1⟩
      [1] ["b"]
      = .ok ⟨[⟨1,"u1",0⟩],[],[],[⟨1,"a",none⟩,⟨2,"b",none⟩],
             [⟨1,1,1,1,0,none,none,none,none,none,0,0,[1]⟩],[],2,3,1,1⟩ := by
  refine ⟨?_, ?_, ?_, ?_⟩
  · exact (add_remove_tags_idempotent
      ⟨[⟨1,"u1",0⟩],[],[],[⟨1,"a",none⟩,⟨2,"b",none⟩],
       [⟨1,1,1,1,0,none,none,none,none,none,0,0,[1]⟩],[],2,3,1,1⟩
      [1] ["c"] (fun _ => true) (by decide) (by decide)).1
      ⟨[⟨1,"u1",0⟩],[],[],[⟨1,"a",none⟩,⟨2,"b",none⟩,⟨3,"c",none⟩],
       [⟨1,1,1,1,0,none,none,none,none,none,0,0,[1,3]⟩],[],2,4,1,1⟩
      (by decide)
  · exact (add_remove_tags_idempotent
      ⟨[⟨1,"u1",0⟩],[],[],[⟨1,"a",none⟩,⟨2,"b",none⟩],
       [⟨1,1,1,1,0,none,none,none,none,none,0,0,[1]⟩],[],2,3,1,1⟩
      [1] ["a"] (fun _ => true) (by decide) (by decide)).2.1
      ⟨[⟨1,"u1",0⟩],[],[],[⟨1,"a",none⟩,⟨2,"b",none⟩],
       [⟨1,1,1,1,0,none,none,none,none,none,0,0,[]⟩],[],2,3,1,1⟩
      (by decide)
  · exact (add_remove_tags_idempotent
      ⟨[⟨1,"u1",0⟩],[],[],[⟨1,"a",none⟩,⟨2,"b",none⟩],
       [⟨1,1,1,1,0,none,none,none,none,none,0,0,[1]⟩],[],2,3,1,1⟩
      [1] ["a"] (fun _ => true) (by decide) (by decide)).2.2.1
      [⟨1,"a",none⟩] (by decide) (by decide)
  · exact (add_remove_tags_idempotent
      ⟨[⟨1,"u1",0⟩],[],[],[⟨1,"a",none⟩,⟨2,"b",none⟩],
       [⟨1,1,1,1,0,none,none,none,none,none,0,0,[1]⟩],[],2,3,1,1⟩
      [1] ["b"] (fun _ => true) (by decide) (by decide)).2.2.2
      [⟨2,"b",none⟩] (by decide) (by decide)

end Mpay
